import Mathlib

/-!
Verification of the JWT analysis pipeline: lexical scanner, Base64URL codec,
structural (JSON) analysis, semantic rule engine, encoder and signature
verifier.  Python strings are modelled as lists of unicode scalar characters,
dictionaries as association lists, and fallible code returns `Option`/`Except`.
Floating-point JSON numbers are outside the embedding's value domain.
-/

set_option maxHeartbeats 1000000

/-- Python `str` modelled as a list of unicode scalar characters. -/
abbrev PyStr := List Char

/-- JSON values as produced by the parsers (Python objects after `json.loads` /
the hand-written parser).  Objects keep insertion order.  Floats are not
modelled. -/
inductive Json where
  | jNull : Json
  | jBool : Bool → Json
  | jInt : Int → Json
  | jStr : PyStr → Json
  | jArr : List Json → Json
  | jObj : List (PyStr × Json) → Json
deriving Repr

/-- Python `==` between an arbitrary object and a string literal: true exactly
for an equal string (all comparisons in this code are against string
literals). -/
def jsonEqStr (j : Json) (s : PyStr) : Bool :=
  match j with
  | .jStr t => t = s
  | _ => false

/-- Association-list lookup mirroring Python `dict[key]` access for the
insertion-ordered maps of the embedding. -/
def lookupKey : List (PyStr × Json) → PyStr → Option Json
  | [], _ => none
  | (k, v) :: rest, key => if k = key then some v else lookupKey rest key

/-! ## Lexical scanner (`lexical_analyzer.py`, class `JWTLexer`) -/

/-- The automaton states `q0 … q5, qe` of `JWTLexer`. -/
inductive LexState where
  | q0 | q1 | q2 | q3 | q4 | q5 | qe
deriving DecidableEq, Repr

/-- Character classes used by `JWTLexer.get_char_class`. -/
inductive CClass where
  | b | d | other
deriving DecidableEq, Repr

/-- `c ∈ self.b_chars`: the Base64URL alphabet `[A-Za-z0-9-_]`. -/
def isBChar (c : Char) : Bool :=
  ('A' ≤ c && c ≤ 'Z') || ('a' ≤ c && c ≤ 'z') || ('0' ≤ c && c ≤ '9') ||
    c = '-' || c = '_'

/-- `JWTLexer.get_char_class`. -/
def getCharClass (c : Char) : CClass :=
  if isBChar c then .b else if c = '.' then .d else .other

/-- The transition table `JWTLexer.transitions` (only the `b`/`d` columns are
ever consulted; an `other` character short-circuits to `qe` in `analyze`). -/
def lexStep : LexState → CClass → LexState
  | .q0, .b => .q1
  | .q0, .d => .qe
  | .q1, .b => .q1
  | .q1, .d => .q2
  | .q2, .b => .q3
  | .q2, .d => .qe
  | .q3, .b => .q3
  | .q3, .d => .q4
  | .q4, .b => .q5
  | .q4, .d => .qe
  | .q5, .b => .q5
  | .q5, .d => .qe
  | .qe, _ => .qe
  | _, .other => .qe

/-- The scan loop of `JWTLexer.analyze`: on an `other` character the loop sets
`current_state = 'qe'` and breaks (`qe` is a trap state, so stopping is
faithful). -/
def lexRun : LexState → PyStr → LexState
  | s, [] => s
  | s, c :: cs =>
    match getCharClass c with
    | .other => .qe
    | .b => lexRun (lexStep s .b) cs
    | .d => lexRun (lexStep s .d) cs

/-- Python `token.split('.')`. -/
def splitOnDot : PyStr → List PyStr
  | [] => [[]]
  | c :: cs =>
    if c = '.' then [] :: splitOnDot cs
    else
      match splitOnDot cs with
      | [] => [[c]]
      | t :: ts => (c :: t) :: ts

/-- The dictionary returned by `JWTLexer.analyze`; keys absent from a branch's
dictionary are `none`. -/
structure LexResult where
  valid : Bool
  tokens : List PyStr
  header : Option PyStr
  payload : Option PyStr
  signature : Option PyStr
  error : Option PyStr
deriving DecidableEq, Repr

/-- `JWTLexer.analyze`. -/
def JWTLexer.analyze (token : PyStr) : LexResult :=
  let final := lexRun .q0 token
  if final = .q5 then
    let tokens := splitOnDot token
    { valid := true, tokens := tokens
      , header := some (tokens.getD 0 []), payload := some (tokens.getD 1 []),
      signature := some (tokens.getD 2 []), error := none }
  else
    { valid := false, tokens := [], header := none, payload := none,
      signature := none, error := some ("Invalid JWT format").data }

/-- The spec's acceptance condition, stated in its own words: exactly three
nonempty segments over the Base64URL alphabet separated by exactly two dots
and no other character. -/
def lexSpecValid (cs : PyStr) : Prop :=
  ∃ s1 s2 s3 : PyStr, cs = s1 ++ '.' :: (s2 ++ '.' :: s3) ∧
    s1 ≠ [] ∧ s2 ≠ [] ∧ s3 ≠ [] ∧
    (∀ c ∈ s1, isBChar c) ∧ (∀ c ∈ s2, isBChar c) ∧ (∀ c ∈ s3, isBChar c)

/-- Residual language of `q5`: all remaining characters are class `b`. -/
def lang5 (cs : PyStr) : Bool := cs.all isBChar

/-- Residual language of `q4`: a nonempty block of `b` characters. -/
def lang4 : PyStr → Bool
  | [] => false
  | c :: cs => isBChar c && lang5 cs

/-- Residual language of `q3`: `b* '.' b+`. -/
def lang3 : PyStr → Bool
  | [] => false
  | c :: cs => if isBChar c then lang3 cs else if c = '.' then lang4 cs else false

/-- Residual language of `q2`: `b+ '.' b+`. -/
def lang2 : PyStr → Bool
  | [] => false
  | c :: cs => isBChar c && lang3 cs

/-- Residual language of `q1`: `b* '.' b+ '.' b+`. -/
def lang1 : PyStr → Bool
  | [] => false
  | c :: cs => if isBChar c then lang1 cs else if c = '.' then lang2 cs else false

/-- Residual language of `q0`: `b+ '.' b+ '.' b+`. -/
def lang0 : PyStr → Bool
  | [] => false
  | c :: cs => isBChar c && lang1 cs

/-! ## Base64URL codec (`encoder.py`, `decoder_json.py`, `crypto_verifier.py`) -/

/-- UTF-8 encoding of one unicode scalar value (`str.encode('utf-8')`). -/
def utf8EncodeChar (c : Char) : List Nat :=
  let n := c.toNat
  if n < 0x80 then [n]
  else if n < 0x800 then [0xC0 + n / 64, 0x80 + n % 64]
  else if n < 0x10000 then
    [0xE0 + n / 4096, 0x80 + (n / 64) % 64, 0x80 + n % 64]
  else
    [0xF0 + n / 262144, 0x80 + (n / 4096) % 64, 0x80 + (n / 64) % 64, 0x80 + n % 64]

/-- UTF-8 encoding of a Python string. -/
def utf8Encode : PyStr → List Nat
  | [] => []
  | c :: cs => utf8EncodeChar c ++ utf8Encode cs

/-- Strict UTF-8 decoding to codepoints, as a byte-for-byte state machine:
`pending` continuation bytes still expected, `acc` the value so far, `minv`
the smallest value the finished sequence may denote (overlong rejection).
Rejects malformed, overlong, surrogate and out-of-range sequences exactly as
CPython's strict decoder does. -/
def utf8Points : List Nat → Nat → Nat → Nat → Option (List Nat)
  | [], 0, _, _ => some []
  | [], _ + 1, _, _ => none
  | b :: bs, 0, _, _ =>
    if b < 0x80 then (utf8Points bs 0 0 0).map (b :: ·)
    else if b < 0xC2 then none
    else if b < 0xE0 then utf8Points bs 1 (b - 0xC0) 0x80
    else if b < 0xF0 then utf8Points bs 2 (b - 0xE0) 0x800
    else if b < 0xF5 then utf8Points bs 3 (b - 0xF0) 0x10000
    else none
  | b :: bs, k + 1, acc, minv =>
    if 0x80 ≤ b ∧ b < 0xC0 then
      let acc' := acc * 64 + (b - 0x80)
      if k = 0 then
        if minv ≤ acc' ∧ ¬(0xD800 ≤ acc' ∧ acc' < 0xE000) ∧ acc' < 0x110000 then
          (utf8Points bs 0 0 0).map (acc' :: ·)
        else none
      else utf8Points bs k acc' minv
    else none

/-- `bytes.decode('utf-8')` (strict). -/
def utf8Decode (bytes : List Nat) : Option PyStr :=
  (utf8Points bytes 0 0 0).map (List.map Char.ofNat)

/-- The standard base64 alphabet (RFC 4648 table 1), indexed. -/
def stdB64Char (n : Nat) : Char :=
  ("ABCDEFGHIJKLMNOPQRSTUVWXYZabcdefghijklmnopqrstuvwxyz0123456789+/".data).getD n 'A'

/-- Membership in the standard base64 alphabet. -/
def isStdB64Char (c : Char) : Bool :=
  ("ABCDEFGHIJKLMNOPQRSTUVWXYZabcdefghijklmnopqrstuvwxyz0123456789+/".data).contains c

/-- Value of a standard-alphabet character (`None` off the alphabet). -/
def b64ValStd (c : Char) : Option Nat :=
  ("ABCDEFGHIJKLMNOPQRSTUVWXYZabcdefghijklmnopqrstuvwxyz0123456789+/".data).indexOf? c

/-- `base64.b64encode`: standard alphabet, padded with `'='`. -/
def encStdGroups : List Nat → PyStr
  | [] => []
  | [a] => [stdB64Char (a / 4), stdB64Char ((a % 4) * 16), '=', '=']
  | [a, b] => [stdB64Char (a / 4), stdB64Char ((a % 4) * 16 + b / 16),
      stdB64Char ((b % 16) * 4), '=']
  | a :: b :: c :: rest =>
    stdB64Char (a / 4) :: stdB64Char ((a % 4) * 16 + b / 16) ::
      stdB64Char ((b % 16) * 4 + c / 64) :: stdB64Char (c % 64) :: encStdGroups rest

/-- The same encoding without the trailing `'='` padding (what
`encode_base64url` produces after `rstrip('=')`). -/
def encStdNP : List Nat → PyStr
  | [] => []
  | [a] => [stdB64Char (a / 4), stdB64Char ((a % 4) * 16)]
  | [a, b] => [stdB64Char (a / 4), stdB64Char ((a % 4) * 16 + b / 16),
      stdB64Char ((b % 16) * 4)]
  | a :: b :: c :: rest =>
    stdB64Char (a / 4) :: stdB64Char ((a % 4) * 16 + b / 16) ::
      stdB64Char ((b % 16) * 4 + c / 64) :: stdB64Char (c % 64) :: encStdNP rest

/-- The `urlsafe_b64encode` character translation `+/` to `-_`. -/
def toUrlsafe (c : Char) : Char :=
  if c = '+' then '-' else if c = '/' then '_' else c

/-- The substitution performed by `decode_base64url`: `-` to `+`, `_` to `/`. -/
def fromUrlsafe (c : Char) : Char :=
  if c = '-' then '+' else if c = '_' then '/' else c

/-- Python `s.rstrip('=')`. -/
def stripEq : PyStr → PyStr
  | [] => []
  | c :: cs =>
    if stripEq cs = [] ∧ c = '=' then [] else c :: stripEq cs

/-- `encode_base64url` (`encoder.py`): UTF-8 encode, urlsafe base64, strip
all trailing padding. -/
def encode_base64url (s : PyStr) : PyStr :=
  stripEq ((encStdGroups (utf8Encode s)).map toUrlsafe)

/-- Quad-wise base64 data decoding (the data part, before any `'='`):
a trailing group of 1 character is invalid, 2 or 3 yield 1 or 2 bytes. -/
def decodeB64Data : List Char → Option (List Nat)
  | [] => some []
  | [c1, c2] => do
    let v1 ← b64ValStd c1
    let v2 ← b64ValStd c2
    pure [v1 * 4 + v2 / 16]
  | [c1, c2, c3] => do
    let v1 ← b64ValStd c1
    let v2 ← b64ValStd c2
    let v3 ← b64ValStd c3
    pure [v1 * 4 + v2 / 16, (v2 % 16) * 16 + v3 / 4]
  | [_] => none
  | c1 :: c2 :: c3 :: c4 :: rest => do
    let v1 ← b64ValStd c1
    let v2 ← b64ValStd c2
    let v3 ← b64ValStd c3
    let v4 ← b64ValStd c4
    let out ← decodeB64Data rest
    pure ((v1 * 4 + v2 / 16) :: ((v2 % 16) * 16 + v3 / 4) :: ((v3 % 4) * 64 + v4) :: out)

/-- Model of `base64.b64decode(s, validate=False)` / `binascii.a2b_base64`:
characters outside the alphabet are discarded, `'='` terminates the data and
must complete the final quad, anything after the padding is ignored. -/
def b64decodePy (s : PyStr) : Option (List Nat) :=
  let t := s.filter (fun c => isStdB64Char c || c = '=')
  let data := t.takeWhile (· ≠ '=')
  let pads := (t.drop data.length).takeWhile (· = '=')
  let m := data.length % 4
  if m = 1 then none
  else if m = 2 then (if 2 ≤ pads.length then decodeB64Data data else none)
  else if m = 3 then (if 1 ≤ pads.length then decodeB64Data data else none)
  else decodeB64Data data

/-- `decode_base64url` (`decoder_json.py` / `crypto_verifier.py`): substitute
`-_` back to `+/`, restore padding to a multiple of four, base64-decode,
UTF-8-decode; any failure raises `ValueError`, modelled as `none`. -/
def decode_base64url (s : PyStr) : Option PyStr :=
  let s1 := s.map fromUrlsafe
  let m := s1.length % 4
  let padded := if m ≠ 0 then s1 ++ List.replicate (4 - m) '=' else s1
  match b64decodePy padded with
  | none => none
  | some bytes => utf8Decode bytes

/-! ## JSON serialization (`json.dumps(obj, separators=(',', ':'))`) -/

/-- Whitespace accepted by the JSON parsers (`' '`, `'\\t'`, `'\\n'`, `'\\r'`). -/
def isWsChar (c : Char) : Bool :=
  c = ' ' || c = '\t' || c = '\n' || c = '\r'

/-- Skip leading whitespace. -/
def skipWs (s : PyStr) : PyStr := s.dropWhile isWsChar

/-- Python `dict` insertion: overwrite in place if the key exists, else
append. -/
def insertKey : List (PyStr × Json) → PyStr → Json → List (PyStr × Json)
  | [], k, v => [(k, v)]
  | (k', v') :: rest, k, v =>
    if k' = k then (k, v) :: rest else (k', v') :: insertKey rest k v

/-- `'0' ≤ c ≤ '9'`, phrased on codepoints. -/
def isDigitChar (c : Char) : Bool := 48 ≤ c.toNat && c.toNat ≤ 57

/-- Lowercase hex digit (also used for decimal digits `0`–`9`). -/
def hexDigit (n : Nat) : Char := ("0123456789abcdef".data).getD n '0'

/-- Accumulating decimal value of a digit run. -/
def digitsValGo (acc : Nat) : PyStr → Nat
  | [] => acc
  | c :: t => digitsValGo (acc * 10 + (c.toNat - 48)) t

/-- Decimal digits of a natural number (no leading zeros, `"0"` for zero). -/
def natDigits (n : Nat) : PyStr :=
  if _h : n < 10 then [hexDigit n]
  else natDigits (n / 10) ++ [hexDigit (n % 10)]
decreasing_by omega

/-- Python `str(int)`. -/
def intDumps (i : Int) : PyStr :=
  if i < 0 then '-' :: natDigits (-i).toNat else natDigits i.toNat

/-- The `\\uXXXX` escape with lowercase hex, as `json.dumps` emits. -/
def uEscape (n : Nat) : PyStr :=
  ['\\', 'u', hexDigit (n / 4096 % 16), hexDigit (n / 256 % 16),
    hexDigit (n / 16 % 16), hexDigit (n % 16)]

/-- `json.dumps` escaping of one character with the default `ensure_ascii`:
short escapes for the two specials and five control characters, `\\uXXXX`
(surrogate pairs beyond the BMP) for every other character outside
`' '..'~'`. -/
def dumpsChar (c : Char) : PyStr :=
  if c = '"' then ['\\', '"']
  else if c = '\\' then ['\\', '\\']
  else if c = '\x08' then ['\\', 'b']
  else if c = '\x0c' then ['\\', 'f']
  else if c = '\n' then ['\\', 'n']
  else if c = '\r' then ['\\', 'r']
  else if c = '\t' then ['\\', 't']
  else if c.toNat < 0x20 ∨ 0x7E < c.toNat then
    if c.toNat < 0x10000 then uEscape c.toNat
    else uEscape (0xD800 + (c.toNat - 0x10000) / 1024) ++
      uEscape (0xDC00 + (c.toNat - 0x10000) % 1024)
  else [c]

/-- Body of a serialized JSON string. -/
def dumpsStrBody : PyStr → PyStr
  | [] => []
  | c :: cs => dumpsChar c ++ dumpsStrBody cs

/-- A serialized JSON string with its quotes. -/
def dumpsStr (s : PyStr) : PyStr := '"' :: dumpsStrBody s ++ ['"']

mutual

/-- `json.dumps(v, separators=(',', ':'))`: compact serialization in
insertion order (`sort_keys` defaults to false). -/
def dumps : Json → PyStr
  | .jNull => 'n' :: 'u' :: 'l' :: 'l' :: []
  | .jBool true => 't' :: 'r' :: 'u' :: 'e' :: []
  | .jBool false => 'f' :: 'a' :: 'l' :: 's' :: 'e' :: []
  | .jInt i => intDumps i
  | .jStr s => dumpsStr s
  | .jArr l => '[' :: dumpsArr l ++ [']']
  | .jObj m => '\x7b' :: dumpsObj m ++ ['\x7d']

/-- Comma-joined array elements. -/
def dumpsArr : List Json → PyStr
  | [] => []
  | [v] => dumps v
  | v :: rest => dumps v ++ ',' :: dumpsArr rest

/-- Comma-joined `key:value` pairs. -/
def dumpsObj : List (PyStr × Json) → PyStr
  | [] => []
  | [(k, v)] => dumpsStr k ++ ':' :: dumps v
  | (k, v) :: rest => dumpsStr k ++ ':' :: dumps v ++ ',' :: dumpsObj rest

end

/-- Keys of an association list are pairwise distinct (the invariant every
Python `dict` satisfies). -/
def keysNodup : List (PyStr × Json) → Bool
  | [] => true
  | (k, _) :: t => t.all (fun p => ¬(p.1 = k)) && keysNodup t

mutual

/-- Well-formedness of a JSON value for the embedding: every object in it has
pairwise-distinct keys (true of every value a Python `dict` can hold). -/
def wfJ : Json → Bool
  | .jArr l => wfArr l
  | .jObj m => keysNodup m && wfObj m
  | _ => true

/-- All array elements well-formed. -/
def wfArr : List Json → Bool
  | [] => true
  | v :: t => wfJ v && wfArr t

/-- All object values well-formed. -/
def wfObj : List (PyStr × Json) → Bool
  | [] => true
  | (_, v) :: t => wfJ v && wfObj t

end

/-! ## `json.loads` (model of the stdlib decoder on the embedded value
domain; floats, `NaN`/`Infinity` and lone-surrogate escapes are outside the
domain and parse to `none`) -/

/-- Value of one hex digit, both cases. -/
def hexVal (c : Char) : Option Nat :=
  if 48 ≤ c.toNat ∧ c.toNat ≤ 57 then some (c.toNat - 48)
  else if 97 ≤ c.toNat ∧ c.toNat ≤ 102 then some (c.toNat - 87)
  else if 65 ≤ c.toNat ∧ c.toNat ≤ 70 then some (c.toNat - 55)
  else none

/-- Value of exactly four hex digits. -/
def hexVal4 : PyStr → Option Nat
  | [a, b, c, d] => do
    pure ((← hexVal a) * 4096 + (← hexVal b) * 256 + (← hexVal c) * 16 + (← hexVal d))
  | _ => none

/-- One-character short escapes of the JSON grammar. -/
def escChar (e : Char) : Option Char :=
  if e = '"' then some '"'
  else if e = '\\' then some '\\'
  else if e = '/' then some '/'
  else if e = 'b' then some '\x08'
  else if e = 'f' then some '\x0c'
  else if e = 'n' then some '\n'
  else if e = 'r' then some '\r'
  else if e = 't' then some '\t'
  else none

/-- `json.decoder.py_scanstring` after the opening quote: raw control
characters are rejected (`strict=True`), escapes decoded, `\\uXXXX` high/low
surrogate pairs combined.  Returns the string and the rest after the closing
quote. -/
def parseJStrBody : Nat → PyStr → Option (PyStr × PyStr)
  | 0, _ => none
  | _ + 1, [] => none
  | fuel + 1, c :: cs =>
    if c = '"' then some ([], cs)
    else if c = '\\' then
      match cs with
      | [] => none
      | e :: cs2 =>
        if e = 'u' then
          match hexVal4 (cs2.take 4) with
          | none => none
          | some n =>
            if 0xD800 ≤ n ∧ n < 0xDC00 then
              if (cs2.drop 4).take 2 = ['\\', 'u'] then
                match hexVal4 (((cs2.drop 4).drop 2).take 4) with
                | some m =>
                  if 0xDC00 ≤ m ∧ m < 0xE000 then
                    (parseJStrBody fuel (((cs2.drop 4).drop 2).drop 4)).map
                      (fun r =>
                        (Char.ofNat (0x10000 + (n - 0xD800) * 1024 + (m - 0xDC00)) :: r.1, r.2))
                  else none
                | none => none
              else none
            else if 0xDC00 ≤ n ∧ n < 0xE000 then none
            else (parseJStrBody fuel (cs2.drop 4)).map (fun r => (Char.ofNat n :: r.1, r.2))
        else
          match escChar e with
          | some ec => (parseJStrBody fuel cs2).map (fun r => (ec :: r.1, r.2))
          | none => none
    else if c.toNat < 0x20 then none
    else (parseJStrBody fuel cs).map (fun r => (c :: r.1, r.2))

/-- The integer part of the JSON `NUMBER_RE`: `0` alone or a nonzero digit
followed by a maximal digit run. -/
def parseUNumber : PyStr → Option (Nat × PyStr)
  | [] => none
  | d :: rest =>
    if d = '0' then some (0, rest)
    else if 49 ≤ d.toNat ∧ d.toNat ≤ 57 then
      some (digitsValGo (d.toNat - 48) (rest.takeWhile isDigitChar),
        rest.dropWhile isDigitChar)
    else none

/-- A JSON number.  A fraction or exponent would produce a Python float,
which is outside the embedded value domain, so it parses to `none`. -/
def parseNumber (cs : PyStr) : Option (Json × PyStr) :=
  let p := if cs.head? = some '-' then (true, cs.tail) else (false, cs)
  match parseUNumber p.2 with
  | none => none
  | some (n, rest) =>
    if rest.head? = some '.' ∨ rest.head? = some 'e' ∨ rest.head? = some 'E' then none
    else some (.jInt (if p.1 then -(n : Int) else (n : Int)), rest)

mutual

/-- `json.scanner.py_make_scanner`'s `_scan_once`: dispatch on the first
character; no leading whitespace is skipped here. -/
def parseValue : Nat → PyStr → Option (Json × PyStr)
  | 0, _ => none
  | fuel + 1, cs =>
    match cs with
    | [] => none
    | c :: rest =>
      if c = '"' then (parseJStrBody (rest.length + 1) rest).map (fun r => (.jStr r.1, r.2))
      else if c = '\x7b' then
        let cs1 := skipWs rest
        if cs1.head? = some '\x7d' then some (.jObj [], cs1.tail)
        else (parseObjItems fuel cs1 []).map (fun r => (.jObj r.1, r.2))
      else if c = '[' then
        let cs1 := skipWs rest
        if cs1.head? = some ']' then some (.jArr [], cs1.tail)
        else (parseArrItems fuel cs1).map (fun r => (.jArr r.1, r.2))
      else if cs.take 4 = ('n' :: 'u' :: 'l' :: 'l' :: []) then some (.jNull, cs.drop 4)
      else if cs.take 4 = ('t' :: 'r' :: 'u' :: 'e' :: []) then some (.jBool true, cs.drop 4)
      else if cs.take 5 = ('f' :: 'a' :: 'l' :: 's' :: 'e' :: []) then some (.jBool false, cs.drop 5)
      else parseNumber cs

/-- The element loop of `JSONArray`: a value, then `,` (and more elements) or
`]`. -/
def parseArrItems : Nat → PyStr → Option (List Json × PyStr)
  | 0, _ => none
  | fuel + 1, cs => do
    let (v, r) ← parseValue fuel cs
    let r1 := skipWs r
    match r1 with
    | ',' :: r2 => (parseArrItems fuel (skipWs r2)).map (fun t => (v :: t.1, t.2))
    | ']' :: r2 => some ([v], r2)
    | _ => none

/-- The member loop of `JSONObject`: a quoted key, `:`, a value, then `,` or
`\x7d`; pairs are inserted with `dict` semantics. -/
def parseObjItems : Nat → PyStr → List (PyStr × Json) →
    Option (List (PyStr × Json) × PyStr)
  | 0, _, _ => none
  | fuel + 1, cs, acc =>
    match cs with
    | '"' :: r0 => do
      let (k, r1) ← parseJStrBody (r0.length + 1) r0
      let r2 := skipWs r1
      match r2 with
      | ':' :: r3 => do
        let (v, r4) ← parseValue fuel (skipWs r3)
        let acc' := insertKey acc k v
        let r5 := skipWs r4
        match r5 with
        | ',' :: r6 => parseObjItems fuel (skipWs r6) acc'
        | '\x7d' :: r6 => some (acc', r6)
        | _ => none
      | _ => none
    | _ => none

end

/-- `json.loads`: skip leading whitespace, scan one value, require only
whitespace after it. -/
def pyLoads (s : PyStr) : Option Json :=
  let s1 := skipWs s
  match parseValue (s1.length + 1) s1 with
  | some (v, rest) => if skipWs rest = [] then some v else none
  | none => none

/-! ## Hand-written JSON parser (`syntactic_analyzer.py`, class
`JSONParser`).  `peek` skips whitespace and advances the cursor permanently,
which the models below reproduce; a fraction makes the number a Python float,
outside the embedded domain, so it is modelled as a parse failure (the caller
falls back to `json.loads`, where it also fails). -/

/-- `JSONParser.parse_string` after the opening quote.  Escapes `\" \\ / n t
r u` only (no `b`/`f`), no control-character rejection, `\\uXXXX` decoded
naively with `chr` (no surrogate pairing). -/
def parseMStringBody : Nat → PyStr → Option (PyStr × PyStr)
  | 0, _ => none
  | _ + 1, [] => none
  | fuel + 1, c :: cs =>
    if c = '"' then some ([], cs)
    else if c = '\\' then
      match cs with
      | [] => none
      | e :: cs2 =>
        if e = '"' ∨ e = '\\' ∨ e = '/' then
          (parseMStringBody fuel cs2).map (fun r => (e :: r.1, r.2))
        else if e = 'n' then (parseMStringBody fuel cs2).map (fun r => ('\n' :: r.1, r.2))
        else if e = 't' then (parseMStringBody fuel cs2).map (fun r => ('\t' :: r.1, r.2))
        else if e = 'r' then (parseMStringBody fuel cs2).map (fun r => ('\r' :: r.1, r.2))
        else if e = 'u' then
          if (cs2.take 4).length < 4 then none
          else
            match hexVal4 (cs2.take 4) with
            | some n => (parseMStringBody fuel (cs2.drop 4)).map
                (fun r => (Char.ofNat n :: r.1, r.2))
            | none => none
        else none
    else (parseMStringBody fuel cs).map (fun r => (c :: r.1, r.2))

/-- `JSONParser.parse_number`.  `peek` skips whitespace, so a digit or dot
found across whitespace makes the final `int(...)` call fail; a fraction is a
float and is likewise out of domain. -/
def parseMNumber (cs : PyStr) : Option (Int × PyStr) :=
  let s0 := skipWs cs
  let p := if s0.head? = some '-' then (true, s0.tail) else (false, s0)
  match p.2 with
  | [] => none
  | d :: r =>
    if isDigitChar d then
      let run := (d :: r).takeWhile isDigitChar
      let rest := (d :: r).dropWhile isDigitChar
      let rest' := skipWs rest
      if (rest'.head?.map isDigitChar) = some true then none
      else if rest'.head? = some '.' then none
      else
        let v : Int := digitsValGo 0 run
        some (if p.1 then -v else v, rest')
    else none

mutual

/-- `JSONParser.parse_value`: skip whitespace, dispatch on the next
character (string, object, array, number, then the three literals). -/
def parseMValue : Nat → PyStr → Option (Json × PyStr)
  | 0, _ => none
  | fuel + 1, cs =>
    let s := skipWs cs
    match s.head? with
    | none => none
    | some c =>
      if c = '"' then (parseMStringBody (s.tail.length + 1) s.tail).map (fun r => (.jStr r.1, r.2))
      else if c = '\x7b' then
        let s1 := skipWs s.tail
        if s1.head? = some '\x7d' then some (.jObj [], s1.tail)
        else (parseMObjItems fuel s1 []).map (fun r => (.jObj r.1, r.2))
      else if c = '[' then
        let s1 := skipWs s.tail
        if s1.head? = some ']' then some (.jArr [], s1.tail)
        else (parseMArrItems fuel s1).map (fun r => (.jArr r.1, r.2))
      else if isDigitChar c || c = '-' then
        (parseMNumber s).map (fun r => (.jInt r.1, r.2))
      else if s.take 4 = ('t' :: 'r' :: 'u' :: 'e' :: []) then some (.jBool true, s.drop 4)
      else if s.take 5 = ('f' :: 'a' :: 'l' :: 's' :: 'e' :: []) then some (.jBool false, s.drop 5)
      else if s.take 4 = ('n' :: 'u' :: 'l' :: 'l' :: []) then some (.jNull, s.drop 4)
      else none

/-- `JSONParser.parse_object`'s member loop. -/
def parseMObjItems : Nat → PyStr → List (PyStr × Json) →
    Option (List (PyStr × Json) × PyStr)
  | 0, _, _ => none
  | fuel + 1, cs, acc =>
    let s := skipWs cs
    match s.head? with
    | some '"' => do
      let (k, r1) ← parseMStringBody (s.tail.length + 1) s.tail
      let r2 := skipWs r1
      if r2.head? = some ':' then do
        let (v, r3) ← parseMValue fuel r2.tail
        let acc' := insertKey acc k v
        let r4 := skipWs r3
        if r4.head? = some '\x7d' then some (acc', r4.tail)
        else if r4.head? = some ',' then parseMObjItems fuel r4.tail acc'
        else none
      else none
    | _ => none

/-- `JSONParser.parse_array`'s element loop. -/
def parseMArrItems : Nat → PyStr → Option (List Json × PyStr)
  | 0, _ => none
  | fuel + 1, cs => do
    let (v, r) ← parseMValue fuel cs
    let r1 := skipWs r
    if r1.head? = some ']' then some ([v], r1.tail)
    else if r1.head? = some ',' then
      (parseMArrItems fuel r1.tail).map (fun t => (v :: t.1, t.2))
    else none

end

/-- `parse_json_manual`: parse one value, then only whitespace may remain. -/
def parseManual (s : PyStr) : Option Json :=
  match parseMValue (s.length + 1) s with
  | some (v, rest) => if skipWs rest = [] then some v else none
  | none => none

/-- The parse step of `analyze_syntax`: the manual parser with a fallback to
`json.loads` when it raises anything. -/
def parseWithFallback (s : PyStr) : Option Json :=
  match parseManual s with
  | some v => some v
  | none => pyLoads s

/-! ## Structural analysis (`syntactic_analyzer.py`, `analyze_syntax`) -/

/-- Uncaught Python exceptions that dynamic operations can raise. -/
inductive PyErr where
  | typeError | keyError
deriving DecidableEq, Repr

/-- `isinstance(x, dict)`. -/
def pyIsDict : Json → Bool
  | .jObj _ => true
  | _ => false

/-- `isinstance(x, int)` — Python `bool` is a subclass of `int`. -/
def pyIsInt : Json → Bool
  | .jInt _ => true
  | .jBool _ => true
  | _ => false

/-- `isinstance(x, str)`. -/
def pyIsStr : Json → Bool
  | .jStr _ => true
  | _ => false

/-- `isinstance(x, list)`. -/
def pyIsList : Json → Bool
  | .jArr _ => true
  | _ => false

/-- The numeric value of an `isinstance(..., int)` object (`True == 1`). -/
def pyIntVal : Json → Int
  | .jInt i => i
  | .jBool true => 1
  | _ => 0

/-- `needle` is a prefix of the second argument. -/
def startsWithL : PyStr → PyStr → Bool
  | [], _ => true
  | _ :: _, [] => false
  | a :: as, b :: bs => a = b && startsWithL as bs

/-- Python `needle in haystack` for strings: contiguous substring. -/
def hasSubstr (needle : PyStr) : PyStr → Bool
  | [] => needle = []
  | c :: t => startsWithL needle (c :: t) || hasSubstr needle t

/-- Python `key in x`: mapping/containment test; raises `TypeError` on
non-iterables (`int`, `bool`, `None`). -/
def pyContainsKey (j : Json) (key : PyStr) : Except PyErr Bool :=
  match j with
  | .jObj m => .ok (lookupKey m key).isSome
  | .jArr l => .ok (l.any (fun x => jsonEqStr x key))
  | .jStr s => .ok (hasSubstr key s)
  | _ => .error .typeError

/-- Python `x[key]` with a string key: dictionary lookup (`KeyError` when
absent), `TypeError` on anything else. -/
def pySubscript (j : Json) (key : PyStr) : Except PyErr Json :=
  match j with
  | .jObj m =>
    match lookupKey m key with
    | some v => .ok v
    | none => .error .keyError
  | _ => .error .typeError

/-- The distinct error messages `analyze_syntax` can append. -/
inductive StructErr where
  | headerInvalid
  | payloadInvalid
  | headerNotObject
  | payloadNotObject
  | missingAlg
  | missingTyp
  | typNotJWT
  | intClaim (c : PyStr)
  | audInvalid
  | permissionsInvalid
deriving DecidableEq, Repr

/-- The result dictionary of `analyze_syntax`. -/
structure SynResult where
  success : Bool
  valid : Bool
  header : Option Json
  payload : Option Json
  errors : List StructErr
deriving Repr

/-- The `for t in ("iat", "exp", "nbf")` body: `t in payload and not
isinstance(payload[t], int)`. -/
def checkIntClaim (payload : Json) (t : PyStr) : Except PyErr (List StructErr) := do
  let c ← pyContainsKey payload t
  if c then
    let v ← pySubscript payload t
    pure (if ¬pyIsInt v then [.intClaim t] else [])
  else
    pure []

/-- The `aud` structural check: a list of strings, or a string. -/
def checkAud (payload : Json) : Except PyErr (List StructErr) := do
  let c ← pyContainsKey payload ("aud".data)
  if c then
    let aud ← pySubscript payload ("aud".data)
    match aud with
    | .jArr l => pure (if ¬l.all pyIsStr then [.audInvalid] else [])
    | _ => pure (if ¬pyIsStr aud then [.audInvalid] else [])
  else
    pure []

/-- The `permissions` structural check: a list of only strings. -/
def checkPerm (payload : Json) : Except PyErr (List StructErr) := do
  let c ← pyContainsKey payload ("permissions".data)
  if c then
    let perms ← pySubscript payload ("permissions".data)
    pure (if ¬(pyIsList perms && (match perms with
      | .jArr l => l.all pyIsStr
      | _ => false)) then [.permissionsInvalid] else [])
  else
    pure []

/-- `analyze_syntax(header_str, payload_str)`: parse both texts (manual
parser, falling back to `json.loads`), then aggregate the structural checks;
`valid` is set iff the error list stayed empty.  A `TypeError` (e.g. a
membership test on a non-iterable parse result) propagates. -/
def analyzeStx (headerStr payloadStr : PyStr) : Except PyErr SynResult := do
  match parseWithFallback headerStr with
  | none =>
    return ({ success := true, valid := false, header := none, payload := none, errors := [.headerInvalid] })
  | some header =>
  match parseWithFallback payloadStr with
  | none =>
    return ({ success := true, valid := false, header := none, payload := none, errors := [.payloadInvalid] })
  | some payload => do
    let e1 : List StructErr :=
      (if ¬pyIsDict header then [.headerNotObject] else []) ++
      (if ¬pyIsDict payload then [.payloadNotObject] else [])
    let cAlg ← pyContainsKey header ("alg".data)
    let e2 : List StructErr := if ¬cAlg then [.missingAlg] else []
    let cTyp ← pyContainsKey header ("typ".data)
    let e3 : List StructErr ←
      if ¬cTyp then pure [.missingTyp]
      else do
        let tv ← pySubscript header ("typ".data)
        pure (if ¬jsonEqStr tv ("JWT".data) then [.typNotJWT] else [])
    let eIat ← checkIntClaim payload ("iat".data)
    let eExp ← checkIntClaim payload ("exp".data)
    let eNbf ← checkIntClaim payload ("nbf".data)
    let eAud ← checkAud payload
    let ePerm ← checkPerm payload
    let errors := e1 ++ e2 ++ e3 ++ eIat ++ eExp ++ eNbf ++ eAud ++ ePerm
    return ({ success := true, valid := errors = [], header := some header, payload := some payload, errors := errors })

/-! ## Semantic rule engine (`semantic_analyzer.py`, class
`SemanticAnalyzer`) -/

/-- A header or payload map: a Python `dict` of claims. -/
abbrev JMap := List (PyStr × Json)

/-- `key in dict`. -/
def containsD (m : JMap) (k : PyStr) : Bool := (lookupKey m k).isSome

/-- `dict[key]` under a containment guard (every access in the analyzer is
guarded by a presence check, so the default is unreachable). -/
def getKey (m : JMap) (k : PyStr) : Json := (lookupKey m k).getD .jNull

/-- The five exception classes of `semantic_analyzer.py`, with the claim the
message names. -/
inductive SemErr where
  | missingClaim (c : PyStr)
  | invalidDataType (c : PyStr)
  | invalidValue (c : PyStr)
  | expirationDate
  | notActiveToken
deriving DecidableEq, Repr

/-- `SemanticAnalyzer._validate_header`, check for check in source order:
`alg` presence, `typ` presence, `alg` type, `typ` type, `alg` value
(membership in `{"HS256", "HS384"}`), `typ` value. -/
def validateHeader (h : JMap) : Except SemErr Unit :=
  if ¬containsD h ("alg".data) then .error (.missingClaim ("alg".data))
  else if ¬containsD h ("typ".data) then .error (.missingClaim ("typ".data))
  else if ¬pyIsStr (getKey h ("alg".data)) then .error (.invalidDataType ("alg".data))
  else if ¬pyIsStr (getKey h ("typ".data)) then .error (.invalidDataType ("typ".data))
  else if ¬(jsonEqStr (getKey h ("alg".data)) ("HS256".data) ||
      jsonEqStr (getKey h ("alg".data)) ("HS384".data)) then
    .error (.invalidValue ("alg".data))
  else if ¬jsonEqStr (getKey h ("typ".data)) ("JWT".data) then
    .error (.invalidValue ("typ".data))
  else .ok ()

/-- `SemanticAnalyzer._validate_payload` with the current time passed in:
`exp` (type, then `now >= exp`), `nbf` (type, then `now < nbf`), then the
type-only checks on `iat`, `iss`, `sub`, `aud`. -/
def validatePayload (p : JMap) (tActual : Int) : Except SemErr Unit :=
  if containsD p ("exp".data) ∧ ¬pyIsInt (getKey p ("exp".data)) then
    .error (.invalidDataType ("exp".data))
  else if containsD p ("exp".data) ∧ tActual ≥ pyIntVal (getKey p ("exp".data)) then
    .error .expirationDate
  else if containsD p ("nbf".data) ∧ ¬pyIsInt (getKey p ("nbf".data)) then
    .error (.invalidDataType ("nbf".data))
  else if containsD p ("nbf".data) ∧ tActual < pyIntVal (getKey p ("nbf".data)) then
    .error .notActiveToken
  else if containsD p ("iat".data) ∧ ¬pyIsInt (getKey p ("iat".data)) then
    .error (.invalidDataType ("iat".data))
  else if containsD p ("iss".data) ∧ ¬pyIsStr (getKey p ("iss".data)) then
    .error (.invalidDataType ("iss".data))
  else if containsD p ("sub".data) ∧ ¬pyIsStr (getKey p ("sub".data)) then
    .error (.invalidDataType ("sub".data))
  else if containsD p ("aud".data) ∧
      ¬(pyIsStr (getKey p ("aud".data)) ||
        (match getKey p ("aud".data) with
          | .jArr l => l.all pyIsStr
          | _ => false)) then
    .error (.invalidDataType ("aud".data))
  else .ok ()

/-- `SemanticAnalyzer.analyze` with `int(time.time())` passed as `tActual`. -/
def SemanticAnalyzer.analyze (h p : JMap) (tActual : Int) :
    Except SemErr (JMap × JMap) := do
  validateHeader h
  validatePayload p tActual
  return (h, p)

/-! ## Signer and encoder (`encoder.py`) and verifier
(`crypto_verifier.py`).  The HMAC primitive from the standard library
(`hmac.new(key, msg, hashfn).digest()`) is a deterministic function of the
algorithm, key bytes and message bytes; it is passed in as a parameter, and
every theorem holds for an arbitrary such function. -/

/-- The two supported HMAC hash algorithms. -/
inductive HAlg where
  | hs256 | hs384
deriving DecidableEq, Repr

/-- The type of the `hmac.new(...).digest()` primitive. -/
abbrev HmacFn := HAlg → List Nat → List Nat → List Nat

/-- `sign_token` (identical in `encoder.py` and `crypto_verifier.py`):
select the hash by the `algorithm` value (any other value raises
`ValueError`), MAC the exact `header_b64.payload_b64` text, base64url-encode
the digest and strip the padding. -/
def sign_token (hmacFn : HmacFn) (headerB64 payloadB64 : PyStr)
    (algorithm : Json) (secret : PyStr) : Except Unit PyStr :=
  let message := headerB64 ++ '.' :: payloadB64
  if jsonEqStr algorithm ("HS256".data) then
    .ok (stripEq ((encStdGroups
      (hmacFn .hs256 (utf8Encode secret) (utf8Encode message))).map toUrlsafe))
  else if jsonEqStr algorithm ("HS384".data) then
    .ok (stripEq ((encStdGroups
      (hmacFn .hs384 (utf8Encode secret) (utf8Encode message))).map toUrlsafe))
  else .error ()

/-- The failure modes of `encode_jwt`. -/
inductive EncErr where
  | syntaxInvalid (errors : List StructErr)
  | semantic (e : SemErr)
  | unsupportedAlg
  | pyError (e : PyErr)
deriving Repr

/-- `encode_jwt(header, payload, secret)` with the current time passed in:
serialize both maps compactly, run the structural then the semantic
validation, read `alg`, base64url-encode the exact serialized texts, sign,
and join the three segments with dots. -/
def encode_jwt (hmacFn : HmacFn) (header payload : JMap) (secret : PyStr)
    (tActual : Int) : Except EncErr PyStr := do
  let headerJson := dumps (.jObj header)
  let payloadJson := dumps (.jObj payload)
  let syn ← (analyzeStx headerJson payloadJson).mapError .pyError
  if ¬syn.valid then throw (.syntaxInvalid syn.errors)
  let _ ← (SemanticAnalyzer.analyze header payload tActual).mapError .semantic
  let algorithm ← match lookupKey header ("alg".data) with
    | some a => pure a
    | none => throw (.pyError .keyError)
  let headerB64 := encode_base64url headerJson
  let payloadB64 := encode_base64url payloadJson
  let signatureB64 ← (sign_token hmacFn headerB64 payloadB64 algorithm
    secret).mapError (fun _ => EncErr.unsupportedAlg)
  return headerB64 ++ '.' :: (payloadB64 ++ '.' :: signatureB64)

/-! ## Verifier (`crypto_verifier.py`, `verify_jwt_signature`) -/

/-- The distinct error messages of `verify_jwt_signature`. -/
inductive VErr where
  | shapeError
  | headerDecodeError
  | missingAlgClaim
  | unsupportedAlg
  | signError
  | signatureMismatch
  | payloadDecodeError
  | unexpectedError
deriving DecidableEq, Repr

/-- The result dictionary of `verify_jwt_signature`; keys absent in a
branch's dictionary are `none`. -/
structure VResult where
  valid : Bool
  algorithm : Option Json
  header : Option Json
  payload : Option Json
  error : Option VErr
deriving Repr

/-- `hmac.compare_digest` on `str` arguments: constant-time equality,
`TypeError` unless both strings are ASCII-only. -/
def compare_digest (a b : PyStr) : Except PyErr Bool :=
  if (∀ c ∈ a, c.toNat < 128) ∧ (∀ c ∈ b, c.toNat < 128) then .ok (a = b)
  else .error .typeError

/-- The body of `verify_jwt_signature` inside its catch-all `try`. -/
def verifyBody (hmacFn : HmacFn) (jwtToken secret : PyStr) :
    Except PyErr VResult :=
  let parts := splitOnDot jwtToken
  if parts.length ≠ 3 then
    .ok { valid := false, algorithm := none, header := none, payload := none, error := some .shapeError }
  else
    let headerB64 := parts.getD 0 []
    let payloadB64 := parts.getD 1 []
    let signatureB64 := parts.getD 2 []
    match (decode_base64url headerB64).bind pyLoads with
    | none =>
      .ok { valid := false, algorithm := none, header := none, payload := none, error := some .headerDecodeError }
    | some header =>
      match pyContainsKey header ("alg".data) with
      | .error e => .error e
      | .ok cAlg =>
        if ¬cAlg then
          .ok { valid := false, algorithm := none, header := none, payload := none, error := some .missingAlgClaim }
        else
          match pySubscript header ("alg".data) with
          | .error e => .error e
          | .ok algorithm =>
            if ¬(jsonEqStr algorithm ("HS256".data) || jsonEqStr algorithm ("HS384".data)) then
              .ok { valid := false, algorithm := none, header := none, payload := none, error := some .unsupportedAlg }
            else
              match sign_token hmacFn headerB64 payloadB64 algorithm secret with
              | .error _ =>
                .ok { valid := false, algorithm := none, header := none, payload := none, error := some .signError }
              | .ok recalculated =>
                let signatureNorm := stripEq signatureB64
                let recalcNorm := stripEq recalculated
                match compare_digest signatureNorm recalcNorm with
                | .error e => .error e
                | .ok same =>
                  if ¬same then
                    .ok { valid := false, algorithm := some algorithm, header := some header, payload := none, error := some .signatureMismatch }
                  else
                    match (decode_base64url payloadB64).bind pyLoads with
                    | none =>
                      .ok { valid := false, algorithm := none, header := none, payload := none, error := some .payloadDecodeError }
                    | some payload =>
                      .ok { valid := true, algorithm := some algorithm, header := some header, payload := some payload, error := none }

/-- `verify_jwt_signature(jwt_token, secret)`: the body under the catch-all
`except Exception`, which converts any propagated exception into the
"Error inesperado" result. -/
def verify_jwt_signature (hmacFn : HmacFn) (jwtToken secret : PyStr) : VResult :=
  match verifyBody hmacFn jwtToken secret with
  | .ok r => r
  | .error _ =>
    { valid := false, algorithm := none, header := none, payload := none
      , error := some .unexpectedError }

-- Decidable equality for `Except` results, used to settle concrete runs.
deriving instance DecidableEq for Except

/-- The characters that may legally follow a serialized JSON value inside a
larger document (or the end of input): used to state the parse round trip. -/
def followerP (rest : PyStr) : Prop :=
  rest.head? = none ∨ rest.head? = some ',' ∨ rest.head? = some ']' ∨
    rest.head? = some '\x7d'

/-! ## Theorems: lexical scanner -/

theorem isBChar_ne_dot {c : Char} (h : isBChar c = true) : c ≠ '.' := by
  intro he
  subst he
  exact absurd h (by decide)

theorem lexRun_charac : ∀ cs : PyStr,
    (lexRun .q0 cs = .q5 ↔ lang0 cs = true) ∧
    (lexRun .q1 cs = .q5 ↔ lang1 cs = true) ∧
    (lexRun .q2 cs = .q5 ↔ lang2 cs = true) ∧
    (lexRun .q3 cs = .q5 ↔ lang3 cs = true) ∧
    (lexRun .q4 cs = .q5 ↔ lang4 cs = true) ∧
    (lexRun .q5 cs = .q5 ↔ lang5 cs = true) ∧
    (lexRun .qe cs = .q5 ↔ False)
  | [] => by
    simp [lexRun, lang0, lang1, lang2, lang3, lang4, lang5]
  | c :: cs => by
    obtain ⟨ih0, ih1, ih2, ih3, ih4, ih5, ihe⟩ := lexRun_charac cs
    by_cases hb : isBChar c
    · simp only [lexRun, getCharClass, hb, if_true, lexStep, lang0, lang1, lang2,
        lang3, lang4, lang5, List.all_cons, Bool.and_eq_true]
      exact ⟨by simpa using ih1, by simpa using ih1, by simpa using ih3,
        by simpa using ih3, by simpa [lang5] using ih5, by simpa [lang5] using ih5, ihe⟩
    · by_cases hd : c = '.'
      · subst hd
        simp only [lexRun, getCharClass, hb, if_false, if_true, lexStep, lang0,
          lang1, lang2, lang3, lang4, lang5, List.all_cons, Bool.and_eq_true]
        exact ⟨by simpa [hb] using ihe, by simpa [hb] using ih2,
          by simpa [hb] using ihe, by simpa [hb] using ih4,
          by simpa [hb] using ihe, by simpa [hb] using ihe, ihe⟩
      · have hcl : getCharClass c = .other := by simp [getCharClass, hb, hd]
        simp only [lexRun, hcl, lang0, lang1, lang2, lang3, lang4, lang5,
          List.all_cons, Bool.and_eq_true]
        simp [hb, hd]

theorem lang4_iff (cs : PyStr) :
    lang4 cs = true ↔ cs ≠ [] ∧ ∀ c ∈ cs, isBChar c = true := by
  cases cs with
  | nil => simp [lang4]
  | cons c cs => simp [lang4, lang5, List.all_eq_true]

theorem lang3_iff : ∀ cs : PyStr,
    lang3 cs = true ↔ ∃ s2 s3 : PyStr, cs = s2 ++ '.' :: s3 ∧
      (∀ c ∈ s2, isBChar c = true) ∧ s3 ≠ [] ∧ ∀ c ∈ s3, isBChar c = true
  | [] => by
    constructor
    · intro h
      simp [lang3] at h
    · rintro ⟨s2, s3, h, -⟩
      exact absurd h (by simp)
  | c :: cs => by
    constructor
    · intro h
      by_cases hb : isBChar c
      · rw [lang3, if_pos hb] at h
        obtain ⟨s2, s3, he, h2, h3, hall⟩ := (lang3_iff cs).mp h
        exact ⟨c :: s2, s3, by simp [he], by simpa [hb] using h2, h3, hall⟩
      · by_cases hd : c = '.'
        · subst hd
          rw [lang3, if_neg hb, if_pos rfl] at h
          obtain ⟨hne, hall⟩ := (lang4_iff cs).mp h
          exact ⟨[], cs, by simp, by simp, hne, hall⟩
        · rw [lang3, if_neg hb, if_neg hd] at h
          exact absurd h (by simp)
    · rintro ⟨s2, s3, he, h2, h3, hall⟩
      cases s2 with
      | nil =>
        simp only [List.nil_append] at he
        cases he
        rw [lang3, if_neg (by decide), if_pos rfl]
        exact (lang4_iff cs).mpr ⟨h3, hall⟩
      | cons a s2' =>
        simp only [List.cons_append, List.cons.injEq] at he
        obtain ⟨rfl, he'⟩ := he
        have hb : isBChar c = true := h2 c (by simp)
        rw [lang3, if_pos hb]
        exact (lang3_iff cs).mpr ⟨s2', s3, he', fun x hx => h2 x (by simp [hx]), h3, hall⟩

theorem lang2_iff (cs : PyStr) :
    lang2 cs = true ↔ ∃ s2 s3 : PyStr, cs = s2 ++ '.' :: s3 ∧
      s2 ≠ [] ∧ (∀ c ∈ s2, isBChar c = true) ∧ s3 ≠ [] ∧ ∀ c ∈ s3, isBChar c = true := by
  cases cs with
  | nil =>
    constructor
    · intro h; simp [lang2] at h
    · rintro ⟨s2, s3, h, h2, -⟩
      cases s2 <;> simp_all
  | cons c cs =>
    rw [lang2, Bool.and_eq_true, lang3_iff]
    constructor
    · rintro ⟨hb, s2, s3, he, h2, h3, hall⟩
      exact ⟨c :: s2, s3, by simp [he], by simp, by simpa [hb] using h2, h3, hall⟩
    · rintro ⟨s2, s3, he, hne, h2, h3, hall⟩
      cases s2 with
      | nil => simp at hne
      | cons a s2' =>
        simp only [List.cons_append, List.cons.injEq] at he
        obtain ⟨rfl, he'⟩ := he
        exact ⟨h2 c (by simp), s2', s3, he', fun x hx => h2 x (by simp [hx]), h3, hall⟩

theorem lang1_iff : ∀ cs : PyStr,
    lang1 cs = true ↔ ∃ s1 s2 s3 : PyStr, cs = s1 ++ '.' :: (s2 ++ '.' :: s3) ∧
      (∀ c ∈ s1, isBChar c = true) ∧
      s2 ≠ [] ∧ (∀ c ∈ s2, isBChar c = true) ∧ s3 ≠ [] ∧ ∀ c ∈ s3, isBChar c = true
  | [] => by
    constructor
    · intro h; simp [lang1] at h
    · rintro ⟨s1, s2, s3, h, -⟩
      exact absurd h (by simp)
  | c :: cs => by
    constructor
    · intro h
      by_cases hb : isBChar c
      · rw [lang1, if_pos hb] at h
        obtain ⟨s1, s2, s3, he, h1, h2n, h2, h3n, h3⟩ := (lang1_iff cs).mp h
        exact ⟨c :: s1, s2, s3, by simp [he], by simpa [hb] using h1, h2n, h2, h3n, h3⟩
      · by_cases hd : c = '.'
        · subst hd
          rw [lang1, if_neg hb, if_pos rfl] at h
          obtain ⟨s2, s3, he, h2n, h2, h3n, h3⟩ := (lang2_iff cs).mp h
          exact ⟨[], s2, s3, by simp [he], by simp, h2n, h2, h3n, h3⟩
        · rw [lang1, if_neg hb, if_neg hd] at h
          exact absurd h (by simp)
    · rintro ⟨s1, s2, s3, he, h1, h2n, h2, h3n, h3⟩
      cases s1 with
      | nil =>
        simp only [List.nil_append] at he
        cases he
        rw [lang1, if_neg (by decide), if_pos rfl]
        exact (lang2_iff _).mpr ⟨s2, s3, rfl, h2n, h2, h3n, h3⟩
      | cons a s1' =>
        simp only [List.cons_append, List.cons.injEq] at he
        obtain ⟨rfl, he'⟩ := he
        rw [lang1, if_pos (h1 c (by simp))]
        exact (lang1_iff cs).mpr ⟨s1', s2, s3, he', fun x hx => h1 x (by simp [hx]), h2n, h2, h3n, h3⟩

theorem lang0_iff (cs : PyStr) : lang0 cs = true ↔ lexSpecValid cs := by
  cases cs with
  | nil =>
    constructor
    · intro h; simp [lang0] at h
    · rintro ⟨s1, s2, s3, h, h1, -⟩
      cases s1 <;> simp_all
  | cons c cs =>
    rw [lang0, Bool.and_eq_true, lang1_iff]
    constructor
    · rintro ⟨hb, s1, s2, s3, he, h1, h2n, h2, h3n, h3⟩
      exact ⟨c :: s1, s2, s3, by simp [he], by simp, h2n, h3n,
        by simpa [hb] using h1, h2, h3⟩
    · rintro ⟨s1, s2, s3, he, h1n, h2n, h3n, h1, h2, h3⟩
      cases s1 with
      | nil => simp at h1n
      | cons a s1' =>
        simp only [List.cons_append, List.cons.injEq] at he
        obtain ⟨rfl, he'⟩ := he
        exact ⟨h1 c (by simp), s1', s2, s3, he', fun x hx => h1 x (by simp [hx]),
          h2n, h2, h3n, h3⟩

theorem splitOnDot_no_dot : ∀ s : PyStr, (∀ c ∈ s, c ≠ '.') → splitOnDot s = [s]
  | [], _ => rfl
  | c :: cs, h => by
    rw [splitOnDot, if_neg (h c (by simp)), splitOnDot_no_dot cs (fun x hx => h x (by simp [hx]))]

theorem splitOnDot_append : ∀ s rest : PyStr, (∀ c ∈ s, c ≠ '.') →
    splitOnDot (s ++ '.' :: rest) = s :: splitOnDot rest
  | [], rest, _ => by simp [splitOnDot]
  | c :: cs, rest, h => by
    rw [List.cons_append, splitOnDot, if_neg (h c (by simp)),
      splitOnDot_append cs rest (fun x hx => h x (by simp [hx]))]

/-- Claim C2: the lexical scanner's `analyze` returns `valid = true` iff the
input is exactly three nonempty Base64URL-alphabet segments separated by two
dots with no other character; on accept `tokens` is exactly the three nonempty
segments obtained by splitting on `'.'`, and on reject `tokens` is empty. -/
theorem claim_C2_lexer (cs : PyStr) :
    ((JWTLexer.analyze cs).valid = true ↔ lexSpecValid cs) ∧
    ((JWTLexer.analyze cs).valid = true →
      (JWTLexer.analyze cs).tokens = splitOnDot cs ∧
      (splitOnDot cs).length = 3 ∧
      ∀ t ∈ splitOnDot cs, t ≠ [] ∧ ∀ c ∈ t, isBChar c = true) ∧
    ((JWTLexer.analyze cs).valid = false → (JWTLexer.analyze cs).tokens = []) := by
  have hiff : (JWTLexer.analyze cs).valid = true ↔ lexSpecValid cs := by
    rw [← lang0_iff, ← (lexRun_charac cs).1]
    unfold JWTLexer.analyze
    by_cases h : lexRun .q0 cs = .q5
    · simp [h]
    · simp [h]
  refine ⟨hiff, ?_, ?_⟩
  · intro hv
    obtain ⟨s1, s2, s3, he, h1n, h2n, h3n, h1, h2, h3⟩ := hiff.mp hv
    have hd1 : ∀ c ∈ s1, c ≠ '.' := fun c hc => isBChar_ne_dot (h1 c hc)
    have hd2 : ∀ c ∈ s2, c ≠ '.' := fun c hc => isBChar_ne_dot (h2 c hc)
    have hd3 : ∀ c ∈ s3, c ≠ '.' := fun c hc => isBChar_ne_dot (h3 c hc)
    have hsplit : splitOnDot cs = [s1, s2, s3] := by
      rw [he, splitOnDot_append _ _ hd1, splitOnDot_append _ _ hd2,
        splitOnDot_no_dot _ hd3]
    refine ⟨?_, by simp [hsplit], ?_⟩
    · unfold JWTLexer.analyze at hv ⊢
      by_cases h : lexRun .q0 cs = .q5
      · simp [h]
      · simp [h] at hv
    · rw [hsplit]
      intro t ht
      simp only [List.mem_cons, List.not_mem_nil, or_false] at ht
      rcases ht with rfl | rfl | rfl
      · exact ⟨h1n, h1⟩
      · exact ⟨h2n, h2⟩
      · exact ⟨h3n, h3⟩
  · intro hv
    unfold JWTLexer.analyze at hv ⊢
    by_cases h : lexRun .q0 cs = .q5
    · simp [h] at hv
    · simp [h]

/-- Witness for C2 at concrete accepted and rejected inputs. -/
theorem claim_C2_lexer_witness :
    (JWTLexer.analyze ("abc.def.ghi".data)).tokens = splitOnDot ("abc.def.ghi".data) ∧
    (JWTLexer.analyze ("ab!c.def.ghi".data)).tokens = [] := by
  constructor
  · exact ((claim_C2_lexer ("abc.def.ghi".data)).2.1 (by decide)).1
  · exact (claim_C2_lexer ("ab!c.def.ghi".data)).2.2 (by decide)

theorem char_toNat_valid (c : Char) :
    c.toNat < 0x110000 ∧ ¬(0xD800 ≤ c.toNat ∧ c.toNat < 0xE000) := by
  rcases c.valid with h | ⟨h1, h2⟩ <;> (simp only [Char.toNat]; omega)

theorem utf8Points_encodeChar (c : Char) (rest : List Nat) :
    utf8Points (utf8EncodeChar c ++ rest) 0 0 0
      = (utf8Points rest 0 0 0).map (c.toNat :: ·) := by
  obtain ⟨hlt, hsur⟩ := char_toNat_valid c
  by_cases h1 : c.toNat < 0x80
  · have he : utf8EncodeChar c = [c.toNat] := by
      simp only [utf8EncodeChar]
      rw [if_pos h1]
    rw [he]
    simp only [List.cons_append, List.nil_append]
    rw [utf8Points, if_pos h1]
  · by_cases h2 : c.toNat < 0x800
    · have he : utf8EncodeChar c = [0xC0 + c.toNat / 64, 0x80 + c.toNat % 64] := by
        simp only [utf8EncodeChar]
        rw [if_neg h1, if_pos h2]
      rw [he]
      simp only [List.cons_append, List.nil_append]
      rw [utf8Points,
        if_neg (show ¬(0xC0 + c.toNat / 64 < 0x80) by omega),
        if_neg (show ¬(0xC0 + c.toNat / 64 < 0xC2) by omega),
        if_pos (show 0xC0 + c.toNat / 64 < 0xE0 by omega)]
      rw [utf8Points, if_pos (show 0x80 ≤ 0x80 + c.toNat % 64 ∧ 0x80 + c.toNat % 64 < 0xC0 by omega)]
      simp only [if_pos rfl]
      have hv : (0xC0 + c.toNat / 64 - 0xC0) * 64 + (0x80 + c.toNat % 64 - 0x80)
          = c.toNat := by omega
      rw [if_pos (show _ ∧ _ ∧ _ by rw [hv]; exact ⟨by omega, by omega, by omega⟩), hv]
      exact if_pos trivial
    · by_cases h3 : c.toNat < 0x10000
      · have he : utf8EncodeChar c =
            [0xE0 + c.toNat / 4096, 0x80 + c.toNat / 64 % 64, 0x80 + c.toNat % 64] := by
          simp only [utf8EncodeChar]
          rw [if_neg h1, if_neg h2, if_pos h3]
        rw [he]
        simp only [List.cons_append, List.nil_append]
        rw [utf8Points,
          if_neg (show ¬(0xE0 + c.toNat / 4096 < 0x80) by omega),
          if_neg (show ¬(0xE0 + c.toNat / 4096 < 0xC2) by omega),
          if_neg (show ¬(0xE0 + c.toNat / 4096 < 0xE0) by omega),
          if_pos (show 0xE0 + c.toNat / 4096 < 0xF0 by omega)]
        rw [utf8Points,
          if_pos (show 0x80 ≤ 0x80 + c.toNat / 64 % 64 ∧ 0x80 + c.toNat / 64 % 64 < 0xC0 by omega)]
        simp only [if_neg (one_ne_zero)]
        rw [utf8Points,
          if_pos (show 0x80 ≤ 0x80 + c.toNat % 64 ∧ 0x80 + c.toNat % 64 < 0xC0 by omega)]
        simp only [if_pos rfl]
        have hv : ((0xE0 + c.toNat / 4096 - 0xE0) * 64 + (0x80 + c.toNat / 64 % 64 - 0x80)) * 64 +
            (0x80 + c.toNat % 64 - 0x80) = c.toNat := by omega
        rw [if_pos (show _ ∧ _ ∧ _ by rw [hv]; exact ⟨by omega, by omega, by omega⟩), hv]
        exact if_pos trivial
      · have he : utf8EncodeChar c =
            [0xF0 + c.toNat / 262144, 0x80 + c.toNat / 4096 % 64,
              0x80 + c.toNat / 64 % 64, 0x80 + c.toNat % 64] := by
          simp only [utf8EncodeChar]
          rw [if_neg h1, if_neg h2, if_neg h3]
        rw [he]
        simp only [List.cons_append, List.nil_append]
        rw [utf8Points,
          if_neg (show ¬(0xF0 + c.toNat / 262144 < 0x80) by omega),
          if_neg (show ¬(0xF0 + c.toNat / 262144 < 0xC2) by omega),
          if_neg (show ¬(0xF0 + c.toNat / 262144 < 0xE0) by omega),
          if_neg (show ¬(0xF0 + c.toNat / 262144 < 0xF0) by omega),
          if_pos (show 0xF0 + c.toNat / 262144 < 0xF5 by omega)]
        rw [utf8Points,
          if_pos (show 0x80 ≤ 0x80 + c.toNat / 4096 % 64 ∧ 0x80 + c.toNat / 4096 % 64 < 0xC0 by omega)]
        simp only [if_neg (two_ne_zero)]
        rw [utf8Points,
          if_pos (show 0x80 ≤ 0x80 + c.toNat / 64 % 64 ∧ 0x80 + c.toNat / 64 % 64 < 0xC0 by omega)]
        simp only [if_neg (one_ne_zero)]
        rw [utf8Points,
          if_pos (show 0x80 ≤ 0x80 + c.toNat % 64 ∧ 0x80 + c.toNat % 64 < 0xC0 by omega)]
        simp only [if_pos rfl]
        have hv : (((0xF0 + c.toNat / 262144 - 0xF0) * 64 + (0x80 + c.toNat / 4096 % 64 - 0x80)) * 64 +
            (0x80 + c.toNat / 64 % 64 - 0x80)) * 64 + (0x80 + c.toNat % 64 - 0x80) = c.toNat := by
          omega
        rw [if_pos (show _ ∧ _ ∧ _ by rw [hv]; exact ⟨by omega, by omega, by omega⟩), hv]
        exact if_pos trivial

theorem utf8Points_encode : ∀ s : PyStr,
    utf8Points (utf8Encode s) 0 0 0 = some (s.map Char.toNat)
  | [] => rfl
  | c :: cs => by
    rw [utf8Encode, utf8Points_encodeChar, utf8Points_encode cs]
    rfl

theorem utf8_roundtrip (s : PyStr) : utf8Decode (utf8Encode s) = some s := by
  rw [utf8Decode, utf8Points_encode]
  show some ((s.map Char.toNat).map Char.ofNat) = some s
  have h : ∀ x ∈ s, (Char.ofNat ∘ Char.toNat) x = x := fun x _ => Char.ofNat_toNat x
  rw [List.map_map, List.map_congr_left h]
  simp

theorem stdB64Char_ne_eq (n : Nat) : stdB64Char n ≠ '=' := by
  by_cases h : n < 64
  · exact (show ∀ m, m < 64 → stdB64Char m ≠ '=' by decide) n h
  · rw [stdB64Char, List.getD_eq_default]
    · decide
    · simp only [List.length]
      omega

theorem isStd_stdB64Char (n : Nat) : isStdB64Char (stdB64Char n) = true := by
  by_cases h : n < 64
  · exact (show ∀ m, m < 64 → isStdB64Char (stdB64Char m) = true by decide) n h
  · rw [stdB64Char, List.getD_eq_default]
    · decide
    · simp only [List.length]
      omega

theorem b64ValStd_stdB64Char (n : Nat) (h : n < 64) :
    b64ValStd (stdB64Char n) = some n :=
  (show ∀ m, m < 64 → b64ValStd (stdB64Char m) = some m by decide) n h

theorem fromUrlsafe_toUrlsafe_std (n : Nat) :
    fromUrlsafe (toUrlsafe (stdB64Char n)) = stdB64Char n := by
  by_cases h : n < 64
  · exact (show ∀ m, m < 64 → fromUrlsafe (toUrlsafe (stdB64Char m)) = stdB64Char m by decide) n h
  · rw [stdB64Char, List.getD_eq_default]
    · decide
    · simp only [List.length]
      omega

theorem toUrlsafe_eq_eq_iff (c : Char) : toUrlsafe c = '=' ↔ c = '=' := by
  rw [toUrlsafe]
  by_cases h1 : c = '+'
  · subst h1; simp
  · rw [if_neg h1]
    by_cases h2 : c = '_'
    · subst h2; simp
    · by_cases h3 : c = '/'
      · subst h3; simp
      · rw [if_neg h3]

theorem utf8EncodeChar_lt (c : Char) : ∀ b ∈ utf8EncodeChar c, b < 256 := by
  obtain ⟨hlt, -⟩ := char_toNat_valid c
  intro b hb
  rw [utf8EncodeChar] at hb
  by_cases h1 : c.toNat < 0x80
  · rw [if_pos h1] at hb
    simp at hb
    omega
  · rw [if_neg h1] at hb
    by_cases h2 : c.toNat < 0x800
    · rw [if_pos h2] at hb
      simp at hb
      rcases hb with rfl | rfl <;> omega
    · rw [if_neg h2] at hb
      by_cases h3 : c.toNat < 0x10000
      · rw [if_pos h3] at hb
        simp at hb
        rcases hb with rfl | rfl | rfl <;> omega
      · rw [if_neg h3] at hb
        simp at hb
        rcases hb with rfl | rfl | rfl | rfl <;> omega

theorem utf8Encode_lt : ∀ s : PyStr, ∀ b ∈ utf8Encode s, b < 256
  | [] => by simp [utf8Encode]
  | c :: cs => by
    intro b hb
    rw [utf8Encode, List.mem_append] at hb
    rcases hb with hb | hb
    · exact utf8EncodeChar_lt c b hb
    · exact utf8Encode_lt cs b hb

theorem stripEq_map_toUrlsafe : ∀ l : PyStr,
    stripEq (l.map toUrlsafe) = (stripEq l).map toUrlsafe
  | [] => rfl
  | c :: cs => by
    rw [List.map_cons, stripEq, stripEq, stripEq_map_toUrlsafe cs]
    by_cases h : stripEq cs = [] ∧ c = '='
    · rw [if_pos ⟨by rw [h.1]; rfl, (toUrlsafe_eq_eq_iff c).mpr h.2⟩, if_pos h]
      rfl
    · rw [if_neg (fun hc => h ⟨by
        rcases hc with ⟨h1, h2⟩
        cases he : stripEq cs with
        | nil => rfl
        | cons x xs => rw [he] at h1; simp at h1, (toUrlsafe_eq_eq_iff c).mp hc.2⟩),
        if_neg h]
      rfl

theorem encStdNP_mem : ∀ (bytes : List Nat) (c : Char), c ∈ encStdNP bytes →
    ∃ n, c = stdB64Char n
  | [], c => by simp [encStdNP]
  | [a], c => by
    intro h
    simp only [encStdNP, List.mem_cons, List.not_mem_nil, or_false] at h
    rcases h with rfl | rfl
    · exact ⟨_, rfl⟩
    · exact ⟨_, rfl⟩
  | [a, b], c => by
    intro h
    simp only [encStdNP, List.mem_cons, List.not_mem_nil, or_false] at h
    rcases h with rfl | rfl | rfl
    · exact ⟨_, rfl⟩
    · exact ⟨_, rfl⟩
    · exact ⟨_, rfl⟩
  | a :: b :: d :: rest, c => by
    intro h
    simp only [encStdNP, List.mem_cons] at h
    rcases h with rfl | rfl | rfl | rfl | h
    · exact ⟨_, rfl⟩
    · exact ⟨_, rfl⟩
    · exact ⟨_, rfl⟩
    · exact ⟨_, rfl⟩
    · exact encStdNP_mem rest c h

theorem stripEq_encStdGroups : ∀ bytes : List Nat,
    stripEq (encStdGroups bytes) = encStdNP bytes
  | [] => rfl
  | [a] => by
    simp [encStdGroups, encStdNP, stripEq, stdB64Char_ne_eq]
  | [a, b] => by
    simp [encStdGroups, encStdNP, stripEq, stdB64Char_ne_eq]
  | a :: b :: d :: rest => by
    rw [encStdGroups, stripEq, stripEq, stripEq, stripEq, stripEq_encStdGroups rest,
      encStdNP]
    by_cases h : encStdNP rest = []
    · simp [h, stdB64Char_ne_eq]
    · simp [h, stdB64Char_ne_eq]

theorem encStdNP_mod : ∀ bytes : List Nat,
    ((encStdNP bytes).length % 4 = 0 ∧ bytes.length % 3 = 0) ∨
    ((encStdNP bytes).length % 4 = 2 ∧ bytes.length % 3 = 1) ∨
    ((encStdNP bytes).length % 4 = 3 ∧ bytes.length % 3 = 2)
  | [] => by simp [encStdNP]
  | [a] => by simp [encStdNP]
  | [a, b] => by simp [encStdNP]
  | a :: b :: d :: rest => by
    have ih := encStdNP_mod rest
    have hl : (encStdNP (a :: b :: d :: rest)).length = 4 + (encStdNP rest).length := by
      simp [encStdNP]
      omega
    have hb : (a :: b :: d :: rest).length = 3 + rest.length := by
      simp
      omega
    rw [hl, hb]
    rcases ih with ⟨h1, h2⟩ | ⟨h1, h2⟩ | ⟨h1, h2⟩
    · exact Or.inl ⟨by omega, by omega⟩
    · exact Or.inr (Or.inl ⟨by omega, by omega⟩)
    · exact Or.inr (Or.inr ⟨by omega, by omega⟩)

theorem decodeB64Data_enc : ∀ bytes : List Nat, (∀ b ∈ bytes, b < 256) →
    decodeB64Data (encStdNP bytes) = some bytes
  | [], _ => rfl
  | [a], h => by
    have ha : a < 256 := h a (by simp)
    rw [encStdNP, decodeB64Data,
      b64ValStd_stdB64Char _ (by omega), b64ValStd_stdB64Char _ (by omega)]
    simp only [Option.bind_eq_bind, Option.some_bind, Option.bind_some]
    have : a / 4 * 4 + a % 4 * 16 / 16 = a := by omega
    rw [this]
    rfl
  | [a, b], h => by
    have ha : a < 256 := h a (by simp)
    have hb : b < 256 := h b (by simp)
    rw [encStdNP, decodeB64Data,
      b64ValStd_stdB64Char _ (by omega), b64ValStd_stdB64Char _ (by omega),
      b64ValStd_stdB64Char _ (by omega)]
    simp only [Option.bind_eq_bind, Option.some_bind, Option.bind_some]
    have h1 : a / 4 * 4 + (a % 4 * 16 + b / 16) / 16 = a := by omega
    have h2 : (a % 4 * 16 + b / 16) % 16 * 16 + b % 16 * 4 / 4 = b := by omega
    rw [h1, h2]
    rfl
  | a :: b :: d :: rest, h => by
    have ha : a < 256 := h a (by simp)
    have hb : b < 256 := h b (by simp)
    have hd : d < 256 := h d (by simp)
    have ih := decodeB64Data_enc rest (fun x hx => h x (by simp [hx]))
    rw [encStdNP, decodeB64Data,
      b64ValStd_stdB64Char _ (by omega), b64ValStd_stdB64Char _ (by omega),
      b64ValStd_stdB64Char _ (by omega), b64ValStd_stdB64Char _ (by omega), ih]
    simp only [Option.bind_eq_bind, Option.some_bind, Option.bind_some]
    have h1 : a / 4 * 4 + (a % 4 * 16 + b / 16) / 16 = a := by omega
    have h2 : (a % 4 * 16 + b / 16) % 16 * 16 + (b % 16 * 4 + d / 64) / 4 = b := by omega
    have h3 : (b % 16 * 4 + d / 64) % 4 * 64 + d % 64 = d := by omega
    rw [h1, h2, h3]
    rfl

theorem filter_keep_all : ∀ l : PyStr, (∀ c ∈ l, isStdB64Char c = true ∨ c = '=') →
    l.filter (fun c => isStdB64Char c || c = '=') = l
  | [], _ => rfl
  | c :: cs, h => by
    rw [List.filter_cons, if_pos (by
      rcases h c (by simp) with hc | hc <;> simp [hc]),
      filter_keep_all cs (fun x hx => h x (by simp [hx]))]

theorem takeWhile_enc (k : Nat) : ∀ t : PyStr, (∀ c ∈ t, c ≠ '=') →
    (t ++ List.replicate k '=').takeWhile (fun c => c ≠ '=') = t
  | [], _ => by
    cases k with
    | zero => rfl
    | succ k => simp [List.replicate_succ, List.takeWhile_cons]
  | c :: cs, h => by
    rw [List.cons_append, List.takeWhile_cons, if_pos (by simp [h c (by simp)]),
      takeWhile_enc k cs (fun x hx => h x (by simp [hx]))]

theorem takeWhile_reps (k : Nat) :
    ((List.replicate k '=').takeWhile (fun c => c = '=')).length = k := by
  induction k with
  | zero => rfl
  | succ k ih => simp [List.replicate_succ, List.takeWhile_cons, ih]

theorem b64decodePy_pad_enc (bytes : List Nat) (h : ∀ b ∈ bytes, b < 256) :
    b64decodePy (if (encStdNP bytes).length % 4 ≠ 0
      then encStdNP bytes ++ List.replicate (4 - (encStdNP bytes).length % 4) '='
      else encStdNP bytes) = some bytes := by
  have hstd : ∀ c ∈ encStdNP bytes, isStdB64Char c = true := fun c hc => by
    obtain ⟨n, rfl⟩ := encStdNP_mem bytes c hc
    exact isStd_stdB64Char n
  have hne : ∀ c ∈ encStdNP bytes, c ≠ '=' := fun c hc => by
    obtain ⟨n, rfl⟩ := encStdNP_mem bytes c hc
    exact stdB64Char_ne_eq n
  have hkeep : ∀ (k : Nat),
      (encStdNP bytes ++ List.replicate k '=').filter
        (fun c => isStdB64Char c || c = '=') = encStdNP bytes ++ List.replicate k '=' := by
    intro k
    apply filter_keep_all
    intro c hc
    rw [List.mem_append] at hc
    rcases hc with hc | hc
    · exact Or.inl (hstd c hc)
    · exact Or.inr (List.eq_of_mem_replicate hc)
  have hdata : ∀ (k : Nat),
      (encStdNP bytes ++ List.replicate k '=').takeWhile (fun c => c ≠ '=')
        = encStdNP bytes := fun k => takeWhile_enc k _ hne
  rcases encStdNP_mod bytes with ⟨h4, -⟩ | ⟨h4, -⟩ | ⟨h4, -⟩
  · rw [if_neg (by omega)]
    show b64decodePy (encStdNP bytes) = some bytes
    rw [b64decodePy]
    have e0 : encStdNP bytes = encStdNP bytes ++ List.replicate 0 '=' := by simp
    rw [e0, hkeep 0, hdata 0, ← e0]
    rw [h4]
    simp only [if_neg (by omega : ¬(0 = 1)), if_neg (by omega : ¬(0 = 2)),
      if_neg (by omega : ¬(0 = 3))]
    exact decodeB64Data_enc bytes h
  · rw [if_pos (by omega), show 4 - (encStdNP bytes).length % 4 = 2 by omega]
    rw [b64decodePy, hkeep 2, hdata 2, h4]
    rw [List.drop_left, takeWhile_reps 2]
    simp only [if_neg (by omega : ¬(2 = 1)), if_pos (rfl : (2 : Nat) = 2),
      if_pos (by omega : 2 ≤ 2)]
    exact decodeB64Data_enc bytes h
  · rw [if_pos (by omega), show 4 - (encStdNP bytes).length % 4 = 1 by omega]
    rw [b64decodePy, hkeep 1, hdata 1, h4]
    rw [List.drop_left, takeWhile_reps 1]
    simp only [if_neg (by omega : ¬(3 = 1)), if_neg (by omega : ¬(3 = 2)),
      if_pos (rfl : (3 : Nat) = 3), if_pos (by omega : 1 ≤ 1)]
    exact decodeB64Data_enc bytes h

theorem encode_base64url_eq (s : PyStr) :
    encode_base64url s = (encStdNP (utf8Encode s)).map toUrlsafe := by
  rw [encode_base64url, stripEq_map_toUrlsafe, stripEq_encStdGroups]

theorem map_fromUrlsafe_enc (bytes : List Nat) :
    ((encStdNP bytes).map toUrlsafe).map fromUrlsafe = encStdNP bytes := by
  rw [List.map_map]
  have h : ∀ c ∈ encStdNP bytes, (fromUrlsafe ∘ toUrlsafe) c = c := by
    intro c hc
    obtain ⟨n, rfl⟩ := encStdNP_mem bytes c hc
    exact fromUrlsafe_toUrlsafe_std n
  rw [List.map_congr_left h]
  simp

theorem encode_b64url_no_eq (s : PyStr) : '=' ∉ encode_base64url s := by
  rw [encode_base64url_eq]
  intro hm
  rw [List.mem_map] at hm
  obtain ⟨c, hc, he⟩ := hm
  obtain ⟨n, rfl⟩ := encStdNP_mem _ c hc
  exact stdB64Char_ne_eq n ((toUrlsafe_eq_eq_iff _).mp he)

theorem codec_roundtrip (s : PyStr) :
    decode_base64url (encode_base64url s) = some s := by
  rw [encode_base64url_eq, decode_base64url, map_fromUrlsafe_enc]
  rw [b64decodePy_pad_enc (utf8Encode s) (utf8Encode_lt s)]
  exact utf8_roundtrip s

/-- Claim C6: `encode_base64url` never emits a `'='`, and `decode_base64url`
inverts it on every string. -/
theorem claim_C6_codec (s : PyStr) :
    '=' ∉ encode_base64url s ∧
    decode_base64url (encode_base64url s) = some s :=
  ⟨encode_b64url_no_eq s, codec_roundtrip s⟩

/-! ## Theorems: structural analysis -/

/-- Counterexample to claim C3: on header text `{"alg":123,"typ":"JWX"}` and
payload text `{}`, the structural phase reports exactly the `typ` mismatch;
no `alg` type violation appears (the structural phase checks only the
presence of `alg`, never its type), refuting the claim that the errors list
contains both. -/
theorem claim_C3_counterexample :
    (analyzeStx ("\x7b\"alg\":123,\"typ\":\"JWX\"\x7d".data) ("\x7b\x7d".data)).map
      SynResult.errors = .ok [.typNotJWT] := by
  rfl

/-- Claim C3 (amended): that call returns exactly the `typ` mismatch
violation with `valid = false`; the phase does aggregate several violations
in one call (an empty header object yields both missing-`alg` and
missing-`typ` together), and `valid` is true exactly when the errors list is
empty (shown on a fully valid pair). -/
theorem claim_C3_structural_aggregation :
    ((analyzeStx ("\x7b\"alg\":123,\"typ\":\"JWX\"\x7d".data) ("\x7b\x7d".data)).map
      (fun r => (r.valid, r.errors)) = .ok (false, [.typNotJWT])) ∧
    ((analyzeStx ("\x7b\x7d".data) ("\x7b\x7d".data)).map
      (fun r => (r.valid, r.errors)) = .ok (false, [.missingAlg, .missingTyp])) ∧
    ((analyzeStx ("\x7b\"alg\":\"HS256\",\"typ\":\"JWT\"\x7d".data) ("\x7b\x7d".data)).map
      (fun r => (r.valid, r.errors)) = .ok (true, [])) := by
  exact ⟨rfl, rfl, rfl⟩

/-- Claim C9: the structural phase is claimed never to crash, but a header
text parsing to a non-iterable JSON value such as `5` reaches
`"alg" not in header`, which raises an uncaught `TypeError` in Python; the
claim's other example `[1,2]` indeed survives and reports its violations.
This evaluates the code at the failing input. -/
theorem claim_C9_crash :
    analyzeStx ("5".data) ("\x7b\x7d".data) = .error .typeError ∧
    (analyzeStx ("[1,2]".data) ("\x7b\x7d".data)).map SynResult.errors
      = .ok [.headerNotObject, .missingAlg, .missingTyp] := by
  exact ⟨rfl, rfl⟩

/-! ## Theorems: semantic rule engine -/

/-- Counterexample to claim C4: for a header whose `alg` is present but not a
String and whose `typ` is absent, the engine raises `MissingClaimError` for
`typ`, not `InvalidDataTypeError` for `alg` — the source checks `typ`
presence before `alg`'s type. -/
theorem claim_C4_counterexample :
    validateHeader [(("alg".data), Json.jInt 123)]
      = .error (.missingClaim ("typ".data)) := by
  rfl

/-- Claim C4 (amended): the header validation fails fast in the fixed source
order `alg` presence, `typ` presence, `alg` type, `typ` type, `alg` value,
`typ` value — interleaved by rule kind, not all-of-`alg` first — and passes
exactly when `alg` is a supported algorithm string and `typ` is the string
"JWT". -/
theorem claim_C4_header_order (h : JMap) :
    (¬containsD h ("alg".data) →
      validateHeader h = .error (.missingClaim ("alg".data))) ∧
    (containsD h ("alg".data) → ¬containsD h ("typ".data) →
      validateHeader h = .error (.missingClaim ("typ".data))) ∧
    (containsD h ("alg".data) → containsD h ("typ".data) →
      ¬pyIsStr (getKey h ("alg".data)) →
      validateHeader h = .error (.invalidDataType ("alg".data))) ∧
    (containsD h ("alg".data) → containsD h ("typ".data) →
      pyIsStr (getKey h ("alg".data)) → ¬pyIsStr (getKey h ("typ".data)) →
      validateHeader h = .error (.invalidDataType ("typ".data))) ∧
    (containsD h ("alg".data) → containsD h ("typ".data) →
      pyIsStr (getKey h ("alg".data)) → pyIsStr (getKey h ("typ".data)) →
      ¬(jsonEqStr (getKey h ("alg".data)) ("HS256".data) ||
        jsonEqStr (getKey h ("alg".data)) ("HS384".data)) →
      validateHeader h = .error (.invalidValue ("alg".data))) ∧
    (containsD h ("alg".data) → containsD h ("typ".data) →
      pyIsStr (getKey h ("alg".data)) → pyIsStr (getKey h ("typ".data)) →
      (jsonEqStr (getKey h ("alg".data)) ("HS256".data) ||
        jsonEqStr (getKey h ("alg".data)) ("HS384".data)) →
      ¬jsonEqStr (getKey h ("typ".data)) ("JWT".data) →
      validateHeader h = .error (.invalidValue ("typ".data))) ∧
    (containsD h ("alg".data) → containsD h ("typ".data) →
      pyIsStr (getKey h ("alg".data)) → pyIsStr (getKey h ("typ".data)) →
      (jsonEqStr (getKey h ("alg".data)) ("HS256".data) ||
        jsonEqStr (getKey h ("alg".data)) ("HS384".data)) →
      jsonEqStr (getKey h ("typ".data)) ("JWT".data) →
      validateHeader h = .ok ()) := by
  refine ⟨?_, ?_, ?_, ?_, ?_, ?_, ?_⟩ <;> intros <;> simp_all [validateHeader]

/-- Witness for C4 at concrete headers hitting each rule in order. -/
theorem claim_C4_header_order_witness :
    validateHeader [(("alg".data), Json.jInt 123)]
      = .error (.missingClaim ("typ".data)) ∧
    validateHeader [(("alg".data), Json.jInt 123), (("typ".data), Json.jStr ("JWT".data))]
      = .error (.invalidDataType ("alg".data)) ∧
    validateHeader [(("alg".data), Json.jStr ("RS256".data)), (("typ".data), Json.jStr ("JWT".data))]
      = .error (.invalidValue ("alg".data)) ∧
    validateHeader [(("alg".data), Json.jStr ("HS256".data)), (("typ".data), Json.jStr ("JWT".data))]
      = .ok () := by
  refine ⟨?_, ?_, ?_, ?_⟩
  · exact (claim_C4_header_order _).2.1 (by decide) (by decide)
  · exact (claim_C4_header_order _).2.2.1 (by decide) (by decide) (by decide)
  · exact (claim_C4_header_order _).2.2.2.2.1 (by decide) (by decide) (by decide)
      (by decide) (by decide)
  · exact (claim_C4_header_order _).2.2.2.2.2.2 (by decide) (by decide) (by decide)
      (by decide) (by decide) (by decide)

/-- Claim C5: in the payload validation run at current time `now`, a present
`exp` must be an Integer (else `InvalidDataTypeError`) and `now ≥ exp` raises
`ExpirationDateError`; only afterwards is `nbf` examined in the same way,
with `now < nbf` raising `NotActiveTokenError`; `exp` is checked before
`nbf` (an `exp` failure wins whatever `nbf` holds), and a payload with `exp`
strictly in the future and `nbf` in the past or absent raises none of the
four `exp`/`nbf` errors. -/
theorem claim_C5_payload_order (p : JMap) (now : Int) :
    (containsD p ("exp".data) → ¬pyIsInt (getKey p ("exp".data)) →
      validatePayload p now = .error (.invalidDataType ("exp".data))) ∧
    (containsD p ("exp".data) → pyIsInt (getKey p ("exp".data)) →
      now ≥ pyIntVal (getKey p ("exp".data)) →
      validatePayload p now = .error .expirationDate) ∧
    ((¬containsD p ("exp".data) ∨
        (pyIsInt (getKey p ("exp".data)) ∧ now < pyIntVal (getKey p ("exp".data)))) →
      containsD p ("nbf".data) → ¬pyIsInt (getKey p ("nbf".data)) →
      validatePayload p now = .error (.invalidDataType ("nbf".data))) ∧
    ((¬containsD p ("exp".data) ∨
        (pyIsInt (getKey p ("exp".data)) ∧ now < pyIntVal (getKey p ("exp".data)))) →
      containsD p ("nbf".data) → pyIsInt (getKey p ("nbf".data)) →
      now < pyIntVal (getKey p ("nbf".data)) →
      validatePayload p now = .error .notActiveToken) ∧
    (containsD p ("exp".data) → pyIsInt (getKey p ("exp".data)) →
      now < pyIntVal (getKey p ("exp".data)) →
      (¬containsD p ("nbf".data) ∨
        (pyIsInt (getKey p ("nbf".data)) ∧ pyIntVal (getKey p ("nbf".data)) ≤ now)) →
      validatePayload p now ≠ .error .expirationDate ∧
      validatePayload p now ≠ .error .notActiveToken ∧
      validatePayload p now ≠ .error (.invalidDataType ("exp".data)) ∧
      validatePayload p now ≠ .error (.invalidDataType ("nbf".data))) := by
  refine ⟨?_, ?_, ?_, ?_, ?_⟩
  · intro h1 h2
    simp_all [validatePayload]
  · intro h1 h2 h3
    rw [validatePayload, if_neg (by simp_all), if_pos ⟨h1, h3⟩]
  · rintro (h1 | ⟨h1, h1'⟩) h2 h3 <;>
      (rw [validatePayload, if_neg (by simp_all), if_neg (by
        rintro ⟨hc, hv⟩
        simp_all
        try omega), if_pos ⟨h2, h3⟩])
  · rintro (h1 | ⟨h1, h1'⟩) h2 h3 h4 <;>
      (rw [validatePayload, if_neg (by simp_all), if_neg (by
        rintro ⟨hc, hv⟩
        simp_all
        try omega), if_neg (by simp_all), if_pos ⟨h2, h4⟩])
  · intro h1 h2 h3 h4
    rw [validatePayload, if_neg (by simp_all), if_neg (by
        rintro ⟨hc, hv⟩
        omega),
      if_neg (by
        rintro ⟨hc, hv⟩
        rcases h4 with h4 | ⟨h4, h4'⟩ <;> simp_all),
      if_neg (by
        rintro ⟨hc, hv⟩
        rcases h4 with h4 | ⟨h4, h4'⟩
        · simp_all
        · omega)]
    split_ifs <;> exact ⟨by decide, by decide, by decide, by decide⟩

/-- Witness for C5 at concrete payloads and `now = 100`. -/
theorem claim_C5_payload_order_witness :
    validatePayload [(("exp".data), Json.jStr ("x".data))] 100
      = .error (.invalidDataType ("exp".data)) ∧
    validatePayload [(("exp".data), Json.jInt 50), (("nbf".data), Json.jInt 999)] 100
      = .error .expirationDate ∧
    validatePayload [(("exp".data), Json.jInt 150), (("nbf".data), Json.jInt 999)] 100
      = .error .notActiveToken ∧
    validatePayload [(("exp".data), Json.jInt 150), (("nbf".data), Json.jInt 50)] 100
      ≠ .error .expirationDate := by
  refine ⟨?_, ?_, ?_, ?_⟩
  · exact (claim_C5_payload_order _ 100).1 (by decide) (by decide)
  · exact (claim_C5_payload_order _ 100).2.1 (by decide) (by decide) (by decide)
  · exact (claim_C5_payload_order _ 100).2.2.2.1 (Or.inr (by decide)) (by decide)
      (by decide) (by decide)
  · exact ((claim_C5_payload_order _ 100).2.2.2.2 (by decide) (by decide) (by decide)
      (Or.inr (by decide))).1

/-! ## Theorems: encoder and verifier -/

/-- Counterexample to claim C8: the structural phase does not reject an
unsupported algorithm value — `{"alg":"RS256","typ":"JWT"}` passes
`analyze_syntax` with `valid = true` (only the presence of `alg` is checked
structurally), so the rejection does not happen in both phases. -/
theorem claim_C8_counterexample :
    (analyzeStx ("\x7b\"alg\":\"RS256\",\"typ\":\"JWT\"\x7d".data) ("\x7b\x7d".data)).map
      SynResult.valid = .ok true := by
  rfl

/-- Claim C8 (amended): `encode_jwt` with `alg = "RS256"` fails with the
semantic engine's `InvalidValueError` for `alg` (the code has no separate
`UnsupportedAlgorithmError` class) for every HMAC function, secret and
current time — i.e. before any base64 or signing work can contribute — and
the same semantic rejection hits every non-supported algorithm string; the
structural phase does not perform this check. -/
theorem claim_C8_unsupported_algorithm :
    (∀ (hmacFn : HmacFn) (secret : PyStr) (now : Int),
      encode_jwt hmacFn
        [(("alg".data), Json.jStr ("RS256".data)), (("typ".data), Json.jStr ("JWT".data))]
        [] secret now = .error (.semantic (.invalidValue ("alg".data)))) ∧
    (∀ a : PyStr, a ≠ "HS256".data → a ≠ "HS384".data →
      validateHeader [(("alg".data), Json.jStr a), (("typ".data), Json.jStr ("JWT".data))]
        = .error (.invalidValue ("alg".data))) := by
  constructor
  · intro hmacFn secret now
    rfl
  · intro a h1 h2
    rw [validateHeader]
    rw [if_neg (by simp [containsD, lookupKey]),
      if_neg (by simp [containsD, lookupKey]),
      if_neg (by simp [getKey, lookupKey, pyIsStr]),
      if_neg (by simp [getKey, lookupKey, pyIsStr]),
      if_pos (by simp [jsonEqStr, getKey, lookupKey, h1, h2])]

/-- Witness for C8 at a concrete HMAC function, secret, time and algorithm
string. -/
theorem claim_C8_unsupported_algorithm_witness :
    encode_jwt (fun _ _ _ => [])
      [(("alg".data), Json.jStr ("RS256".data)), (("typ".data), Json.jStr ("JWT".data))]
      [] ("secret".data) 100 = .error (.semantic (.invalidValue ("alg".data))) ∧
    validateHeader [(("alg".data), Json.jStr ("RS256".data)), (("typ".data), Json.jStr ("JWT".data))]
      = .error (.invalidValue ("alg".data)) := by
  exact ⟨claim_C8_unsupported_algorithm.1 _ _ _,
    claim_C8_unsupported_algorithm.2 ("RS256".data) (by decide) (by decide)⟩

/-- Counterexample to claim C7: the token `QQ.QQ.!!` is rejected by the
lexical scanner (the `!` characters), yet `verify_jwt_signature` does not
return a shape error for it — it proceeds to decode the header and fails
there instead, because the verifier never runs the scanner and checks only
that the token splits into three parts. -/
theorem claim_C7_counterexample :
    (JWTLexer.analyze ("QQ.QQ.!!".data)).valid = false ∧
    (verify_jwt_signature (fun _ _ _ => []) ("QQ.QQ.!!".data) ("s".data)).error
      = some .headerDecodeError ∧
    VErr.headerDecodeError ≠ VErr.shapeError := by
  exact ⟨by decide, by decide, by decide⟩

/-- Claim C7 (amended): the verification flow does not invoke the lexical
scanner; its only shape check is that splitting on `'.'` yields exactly
three parts, and every token failing that check gets the invalid
shape-error result without any decoding or signature work. -/
theorem claim_C7_shape_check (hmacFn : HmacFn) (token secret : PyStr)
    (hlen : (splitOnDot token).length ≠ 3) :
    verify_jwt_signature hmacFn token secret =
      { valid := false, algorithm := none, header := none, payload := none,
        error := some .shapeError } := by
  unfold verify_jwt_signature verifyBody
  rw [if_pos hlen]

/-- Witness for C7 at a dotless token. -/
theorem claim_C7_shape_check_witness :
    verify_jwt_signature (fun _ _ _ => []) ("ab".data) ("s".data) =
      { valid := false, algorithm := none, header := none, payload := none,
        error := some .shapeError } :=
  claim_C7_shape_check _ _ _ (by decide)

theorem verifyBody_ok (hmacFn : HmacFn) (token secret : PyStr) (r : VResult)
    (h : verifyBody hmacFn token secret = .ok r) :
    (r.valid = true →
      r.algorithm.isSome ∧ r.header.isSome ∧ r.payload.isSome ∧ r.error = none) ∧
    (r.valid = false → r.error.isSome) := by
  unfold verifyBody at h
  dsimp only at h
  repeat' split at h
  all_goals
    first
      | exact Except.noConfusion h
      | (injection h with h'; subst h'; exact ⟨by intro hv; simp_all, by intro hv; simp_all⟩)

/-- Claim C10: `verify_jwt_signature` is total — for every token and secret
(and any HMAC primitive) it returns a result dictionary rather than
propagating an exception (the catch-all converts any raised error into the
"unexpected error" result); whenever `valid` is true the result carries the
algorithm, decoded header and decoded payload, and whenever `valid` is false
it carries an error message. -/
theorem claim_C10_verify_total (hmacFn : HmacFn) (token secret : PyStr) :
    ((verify_jwt_signature hmacFn token secret).valid = true →
      (verify_jwt_signature hmacFn token secret).algorithm.isSome ∧
      (verify_jwt_signature hmacFn token secret).header.isSome ∧
      (verify_jwt_signature hmacFn token secret).payload.isSome ∧
      (verify_jwt_signature hmacFn token secret).error = none) ∧
    ((verify_jwt_signature hmacFn token secret).valid = false →
      (verify_jwt_signature hmacFn token secret).error.isSome) := by
  unfold verify_jwt_signature
  cases hb : verifyBody hmacFn token secret with
  | ok r => simpa using verifyBody_ok hmacFn token secret r hb
  | error e => simp

/-- Witness for C10: a token accepted with `valid = true` under a concrete
HMAC function (empty digest, hence empty third segment), and a rejected
token carrying an error. -/
theorem claim_C10_verify_total_witness :
    ((verify_jwt_signature (fun _ _ _ => [])
      ((encode_base64url ("\x7b\"alg\":\"HS256\"\x7d".data)) ++ '.' ::
        ((encode_base64url ("\x7b\x7d".data)) ++ '.' :: [])) ("s".data)).payload.isSome) ∧
    ((verify_jwt_signature (fun _ _ _ => []) ("ab".data) ("s".data)).error.isSome) := by
  constructor
  · exact ((claim_C10_verify_total (fun _ _ _ => []) _ _).1 (by decide)).2.2.1
  · exact (claim_C10_verify_total (fun _ _ _ => []) _ _).2 (by decide)

/-! ## Support lemmas for the JSON serialization round trip -/

theorem char_ne_of_toNat {a b : Char} (h : a.toNat ≠ b.toNat) : a ≠ b :=
  fun he => h (he ▸ rfl)

theorem hexDigit_toNat_lt10 (n : Nat) (h : n < 10) : (hexDigit n).toNat = 48 + n :=
  (show ∀ m, m < 10 → (hexDigit m).toNat = 48 + m by decide) n h

theorem natDigits_all_digit (n : Nat) : ∀ c ∈ natDigits n, isDigitChar c = true := by
  rw [natDigits]
  by_cases h : n < 10
  · rw [dif_pos h]
    intro c hc
    simp only [List.mem_cons, List.not_mem_nil, or_false] at hc
    subst hc
    exact (show ∀ m, m < 10 → isDigitChar (hexDigit m) = true by decide) n h
  · rw [dif_neg h]
    intro c hc
    rw [List.mem_append] at hc
    rcases hc with hc | hc
    · exact natDigits_all_digit (n / 10) c hc
    · simp only [List.mem_cons, List.not_mem_nil, or_false] at hc
      subst hc
      exact (show ∀ m, m < 10 → isDigitChar (hexDigit m) = true by decide) _ (by omega)
termination_by n
decreasing_by omega

theorem natDigits_ne_nil (n : Nat) : natDigits n ≠ [] := by
  rw [natDigits]
  by_cases h : n < 10
  · rw [dif_pos h]
    simp
  · rw [dif_neg h]
    simp

theorem natDigits_head (n : Nat) (h : 0 < n) :
    ∃ d ds, natDigits n = d :: ds ∧ 49 ≤ d.toNat ∧ d.toNat ≤ 57 := by
  rw [natDigits]
  by_cases h10 : n < 10
  · rw [dif_pos h10]
    exact ⟨hexDigit n, [], rfl, by rw [hexDigit_toNat_lt10 n h10]; omega,
      by rw [hexDigit_toNat_lt10 n h10]; omega⟩
  · rw [dif_neg h10]
    obtain ⟨d, ds, he, h1, h2⟩ := natDigits_head (n / 10) (by omega)
    exact ⟨d, ds ++ [hexDigit (n % 10)], by rw [he, List.cons_append], h1, h2⟩
termination_by n
decreasing_by omega

theorem digitsValGo_append_one (xs : PyStr) (acc : Nat) (d : Char) :
    digitsValGo acc (xs ++ [d]) = digitsValGo acc xs * 10 + (d.toNat - 48) := by
  induction xs generalizing acc with
  | nil => rfl
  | cons c cs ih =>
    have h1 : digitsValGo acc (c :: (cs ++ [d])) =
        digitsValGo (acc * 10 + (c.toNat - 48)) (cs ++ [d]) := rfl
    have h2 : digitsValGo acc (c :: cs) =
        digitsValGo (acc * 10 + (c.toNat - 48)) cs := rfl
    rw [List.cons_append, h1, h2, ih]

theorem digitsValGo_natDigits (n : Nat) :
    ∀ acc, digitsValGo acc (natDigits n) = acc * 10 ^ (natDigits n).length + n := by
  intro acc
  rw [natDigits]
  by_cases h : n < 10
  · rw [dif_pos h]
    have h1 : digitsValGo acc [hexDigit n] = acc * 10 + ((hexDigit n).toNat - 48) := rfl
    rw [h1, hexDigit_toNat_lt10 n h]
    simp
    try omega
  · rw [dif_neg h]
    rw [digitsValGo_append_one]
    rw [digitsValGo_natDigits (n / 10) acc]
    rw [hexDigit_toNat_lt10 (n % 10) (by omega)]
    rw [List.length_append, List.length_cons, List.length_nil, pow_succ]
    have h2 : acc * (10 ^ (natDigits (n / 10)).length * 10) =
        acc * 10 ^ (natDigits (n / 10)).length * 10 := by ring
    rw [h2]
    omega
termination_by n
decreasing_by omega

theorem takeWhile_append_all (p : Char → Bool) : ∀ (xs rest : PyStr),
    (∀ c ∈ xs, p c = true) → (rest = [] ∨ ∃ c t, rest = c :: t ∧ p c = false) →
    (xs ++ rest).takeWhile p = xs ∧ (xs ++ rest).dropWhile p = rest
  | [], rest, _, hr => by
    rcases hr with rfl | ⟨c, t, rfl, hc⟩
    · simp
    · simp [List.takeWhile_cons, List.dropWhile_cons, hc]
  | x :: xs, rest, hx, hr => by
    have h1 := hx x (by simp)
    obtain ⟨ht, hd⟩ := takeWhile_append_all p xs rest (fun c hc => hx c (by simp [hc])) hr
    rw [List.cons_append, List.takeWhile_cons, List.dropWhile_cons]
    simp [h1, ht, hd]

theorem followerP_facts (rest : PyStr) (hf : followerP rest) :
    rest = [] ∨ ∃ c t, rest = c :: t ∧ isDigitChar c = false ∧ c ≠ '.' ∧
      c ≠ 'e' ∧ c ≠ 'E' := by
  rcases rest with - | ⟨c, t⟩
  · exact Or.inl rfl
  · rcases hf with hf | hf | hf | hf <;> simp only [List.head?] at hf
    · cases hf
    all_goals (injection hf with hf; subst hf; exact Or.inr ⟨_, t, rfl, by decide, by decide, by decide, by decide⟩)

theorem parseNumber_natDigits (n : Nat) (rest : PyStr) (hf : followerP rest) :
    parseUNumber (natDigits n ++ rest) = some (n, rest) := by
  have hrest := followerP_facts rest hf
  by_cases h0 : n = 0
  · subst h0
    have hz : natDigits 0 = ['0'] := by
      rw [natDigits]
      rfl
    rw [hz, List.cons_append, parseUNumber, if_pos rfl, List.nil_append]
  · obtain ⟨d, ds, he, hd1, hd2⟩ := natDigits_head n (by omega)
    rw [he, List.cons_append, parseUNumber,
      if_neg (by
        intro hcon
        subst hcon
        revert hd1
        decide), if_pos ⟨hd1, hd2⟩]
    have hdig : ∀ c ∈ ds, isDigitChar c = true := by
      intro c hc
      exact natDigits_all_digit n c (by rw [he]; simp [hc])
    have hrest2 : rest = [] ∨ ∃ c t, rest = c :: t ∧ isDigitChar c = false := by
      rcases hrest with h | ⟨c, t, h1, h2, -⟩
      · exact Or.inl h
      · exact Or.inr ⟨c, t, h1, h2⟩
    obtain ⟨htake, hdrop⟩ := takeWhile_append_all isDigitChar ds rest hdig hrest2
    rw [htake, hdrop]
    have hv : digitsValGo (d.toNat - 48) ds = n := by
      have hgo := digitsValGo_natDigits n 0
      rw [he] at hgo
      have h0' : digitsValGo 0 (d :: ds) = digitsValGo (d.toNat - 48) ds := by
        show digitsValGo (0 * 10 + (d.toNat - 48)) ds = _
        rw [Nat.zero_mul, Nat.zero_add]
      rw [h0'] at hgo
      simpa using hgo
    rw [hv]

theorem parseNumber_intDumps (i : Int) (rest : PyStr) (hf : followerP rest) :
    parseNumber (intDumps i ++ rest) = some (.jInt i, rest) := by
  have hrf := followerP_facts rest hf
  have hdot : ¬(rest.head? = some '.' ∨ rest.head? = some 'e' ∨ rest.head? = some 'E') := by
    rintro (hx | hx | hx) <;>
      (rcases hrf with rfl | ⟨c, t, rfl, -, hc1, hc2, hc3⟩ <;> simp_all)
  by_cases hneg : i < 0
  · have he : intDumps i = '-' :: natDigits (-i).toNat := by
      rw [intDumps, if_pos hneg]
    rw [he, List.cons_append, parseNumber]
    rw [if_pos (show ('-' :: (natDigits (-i).toNat ++ rest)).head? = some '-' from rfl)]
    simp only [List.tail_cons]
    rw [parseNumber_natDigits _ rest hf]
    simp [hdot]
    omega
  · have he : intDumps i = natDigits i.toNat := by
      rw [intDumps, if_neg hneg]
    rw [he, parseNumber]
    have hcond : ¬((natDigits i.toNat ++ rest).head? = some '-') := by
      obtain ⟨d, ds, hnd⟩ : ∃ d ds, natDigits i.toNat = d :: ds := by
        rcases hx : natDigits i.toNat with - | ⟨d, ds⟩
        · exact absurd hx (natDigits_ne_nil _)
        · exact ⟨d, ds, rfl⟩
      have hdd : isDigitChar d = true := natDigits_all_digit _ d (by rw [hnd]; simp)
      rw [hnd]
      simp only [List.cons_append, List.head?]
      intro hcon
      injection hcon with hcon
      subst hcon
      revert hdd
      decide
    rw [if_neg hcond]
    rw [parseNumber_natDigits _ rest hf]
    simp [hdot]
    omega

theorem hexVal_hexDigit (k : Nat) (h : k < 16) : hexVal (hexDigit k) = some k :=
  (show ∀ m, m < 16 → hexVal (hexDigit m) = some m by decide) k h

theorem hexVal4_digits (n : Nat) (hn : n < 0x10000) :
    hexVal4 [hexDigit (n / 4096 % 16), hexDigit (n / 256 % 16),
      hexDigit (n / 16 % 16), hexDigit (n % 16)] = some n := by
  rw [hexVal4]
  rw [hexVal_hexDigit _ (by omega), hexVal_hexDigit _ (by omega),
    hexVal_hexDigit _ (by omega), hexVal_hexDigit _ (by omega)]
  simp only [Option.bind_eq_bind, Option.some_bind]
  have : n / 4096 % 16 * 4096 + n / 256 % 16 * 256 + n / 16 % 16 * 16 + n % 16 = n := by
    omega
  rw [this]
  rfl

theorem parseJStr_uEscape (f : Nat) (n : Nat) (hn : n < 0x10000)
    (hlo : ¬(0xD800 ≤ n ∧ n < 0xE000)) (tail : PyStr) :
    parseJStrBody (f + 1) (uEscape n ++ tail)
      = (parseJStrBody f tail).map (fun r => (Char.ofNat n :: r.1, r.2)) := by
  show parseJStrBody (f + 1) ('\\' :: 'u' :: hexDigit (n / 4096 % 16) ::
    hexDigit (n / 256 % 16) :: hexDigit (n / 16 % 16) :: hexDigit (n % 16) :: tail) = _
  rw [parseJStrBody]
  rw [if_neg (by decide), if_pos rfl, if_pos rfl]
  have htake : (hexDigit (n / 4096 % 16) :: hexDigit (n / 256 % 16) ::
      hexDigit (n / 16 % 16) :: hexDigit (n % 16) :: tail).take 4
      = [hexDigit (n / 4096 % 16), hexDigit (n / 256 % 16),
        hexDigit (n / 16 % 16), hexDigit (n % 16)] := rfl
  rw [htake, hexVal4_digits n hn]
  simp only []
  rw [if_neg (by omega), if_neg (by omega)]
  rfl

theorem parseJStr_uEscapePair (f : Nat) (n1 n2 : Nat)
    (h1 : 0xD800 ≤ n1 ∧ n1 < 0xDC00) (h2 : 0xDC00 ≤ n2 ∧ n2 < 0xE000) (tail : PyStr) :
    parseJStrBody (f + 1) (uEscape n1 ++ (uEscape n2 ++ tail))
      = (parseJStrBody f tail).map
        (fun r => (Char.ofNat (0x10000 + (n1 - 0xD800) * 1024 + (n2 - 0xDC00)) :: r.1, r.2)) := by
  show parseJStrBody (f + 1) ('\\' :: 'u' :: hexDigit (n1 / 4096 % 16) ::
    hexDigit (n1 / 256 % 16) :: hexDigit (n1 / 16 % 16) :: hexDigit (n1 % 16) ::
    ('\\' :: 'u' :: hexDigit (n2 / 4096 % 16) :: hexDigit (n2 / 256 % 16) ::
      hexDigit (n2 / 16 % 16) :: hexDigit (n2 % 16) :: tail)) = _
  rw [parseJStrBody]
  rw [if_neg (by decide), if_pos rfl, if_pos rfl]
  have htake : ∀ t : PyStr, (hexDigit (n1 / 4096 % 16) :: hexDigit (n1 / 256 % 16) ::
      hexDigit (n1 / 16 % 16) :: hexDigit (n1 % 16) :: t).take 4
      = [hexDigit (n1 / 4096 % 16), hexDigit (n1 / 256 % 16),
        hexDigit (n1 / 16 % 16), hexDigit (n1 % 16)] := fun _ => rfl
  rw [htake, hexVal4_digits n1 (by omega)]
  simp only []
  rw [if_pos (by omega)]
  have hdrop : (hexDigit (n1 / 4096 % 16) :: hexDigit (n1 / 256 % 16) ::
      hexDigit (n1 / 16 % 16) :: hexDigit (n1 % 16) ::
      ('\\' :: 'u' :: hexDigit (n2 / 4096 % 16) :: hexDigit (n2 / 256 % 16) ::
        hexDigit (n2 / 16 % 16) :: hexDigit (n2 % 16) :: tail)).drop 4
      = '\\' :: 'u' :: hexDigit (n2 / 4096 % 16) :: hexDigit (n2 / 256 % 16) ::
        hexDigit (n2 / 16 % 16) :: hexDigit (n2 % 16) :: tail := rfl
  rw [hdrop]
  rw [show ('\\' :: 'u' :: hexDigit (n2 / 4096 % 16) :: hexDigit (n2 / 256 % 16) ::
      hexDigit (n2 / 16 % 16) :: hexDigit (n2 % 16) :: tail).take 2 = ['\\', 'u'] from rfl]
  rw [if_pos rfl]
  rw [show (('\\' :: 'u' :: hexDigit (n2 / 4096 % 16) :: hexDigit (n2 / 256 % 16) ::
      hexDigit (n2 / 16 % 16) :: hexDigit (n2 % 16) :: tail).drop 2).take 4
      = [hexDigit (n2 / 4096 % 16), hexDigit (n2 / 256 % 16),
        hexDigit (n2 / 16 % 16), hexDigit (n2 % 16)] from rfl]
  rw [hexVal4_digits n2 (by omega)]
  simp only []
  rw [if_pos (by omega)]
  rfl

theorem parseJStr_esc (f : Nat) (e ec : Char) (hne : ¬e = 'u') (hec : escChar e = some ec)
    (t : PyStr) :
    parseJStrBody (f + 1) ('\\' :: e :: t)
      = (parseJStrBody f t).map (fun r => (ec :: r.1, r.2)) := by
  rw [parseJStrBody]
  rw [if_neg (by decide), if_pos rfl]
  rw [if_neg hne, hec]

theorem parseJStr_dumps (s : PyStr) : ∀ (f : Nat) (rest : PyStr), s.length < f →
    parseJStrBody f (dumpsStrBody s ++ '"' :: rest) = some (s, rest) := by
  induction s with
  | nil =>
    intro f rest hf
    obtain ⟨f1, rfl⟩ : ∃ f1, f = f1 + 1 := ⟨f - 1, by omega⟩
    rw [dumpsStrBody, List.nil_append]
    rfl
  | cons c cs ih =>
    intro f rest hf
    obtain ⟨f1, rfl⟩ : ∃ f1, f = f1 + 1 := ⟨f - 1, by omega⟩
    have hf1 : cs.length < f1 := by
      simp only [List.length_cons] at hf
      omega
    have hrec := ih f1 rest hf1
    rw [dumpsStrBody, List.append_assoc, dumpsChar]
    by_cases h1 : c = '"'
    · subst h1
      rw [if_pos rfl]
      simp only [List.cons_append, List.nil_append]
      rw [parseJStr_esc f1 '"' '"' (by decide) (by decide), hrec]
      rfl
    rw [if_neg h1]
    by_cases h2 : c = '\\'
    · subst h2
      rw [if_pos rfl]
      simp only [List.cons_append, List.nil_append]
      rw [parseJStr_esc f1 '\\' '\\' (by decide) (by decide), hrec]
      rfl
    rw [if_neg h2]
    by_cases h3 : c = '\x08'
    · subst h3
      rw [if_pos rfl]
      simp only [List.cons_append, List.nil_append]
      rw [parseJStr_esc f1 'b' '\x08' (by decide) (by decide), hrec]
      rfl
    rw [if_neg h3]
    by_cases h4 : c = '\x0c'
    · subst h4
      rw [if_pos rfl]
      simp only [List.cons_append, List.nil_append]
      rw [parseJStr_esc f1 'f' '\x0c' (by decide) (by decide), hrec]
      rfl
    rw [if_neg h4]
    by_cases h5 : c = '\n'
    · subst h5
      rw [if_pos rfl]
      simp only [List.cons_append, List.nil_append]
      rw [parseJStr_esc f1 'n' '\n' (by decide) (by decide), hrec]
      rfl
    rw [if_neg h5]
    by_cases h6 : c = '\r'
    · subst h6
      rw [if_pos rfl]
      simp only [List.cons_append, List.nil_append]
      rw [parseJStr_esc f1 'r' '\r' (by decide) (by decide), hrec]
      rfl
    rw [if_neg h6]
    by_cases h7 : c = '\t'
    · subst h7
      rw [if_pos rfl]
      simp only [List.cons_append, List.nil_append]
      rw [parseJStr_esc f1 't' '\t' (by decide) (by decide), hrec]
      rfl
    rw [if_neg h7]
    by_cases h8 : c.toNat < 0x20 ∨ 0x7E < c.toNat
    · rw [if_pos h8]
      have hval := char_toNat_valid c
      by_cases h9 : c.toNat < 0x10000
      · rw [if_pos h9]
        have hlo : ¬(0xD800 ≤ c.toNat ∧ c.toNat < 0xE000) := by omega
        rw [parseJStr_uEscape f1 c.toNat h9 hlo, Char.ofNat_toNat, hrec]
        rfl
      · rw [if_neg h9]
        rw [List.append_assoc]
        have hn1 : 0xD800 ≤ 0xD800 + (c.toNat - 0x10000) / 1024 ∧
            0xD800 + (c.toNat - 0x10000) / 1024 < 0xDC00 := by omega
        have hn2 : 0xDC00 ≤ 0xDC00 + (c.toNat - 0x10000) % 1024 ∧
            0xDC00 + (c.toNat - 0x10000) % 1024 < 0xE000 := by omega
        rw [parseJStr_uEscapePair f1 _ _ hn1 hn2]
        have harith : 0x10000 + (0xD800 + (c.toNat - 0x10000) / 1024 - 0xD800) * 1024 +
            (0xDC00 + (c.toNat - 0x10000) % 1024 - 0xDC00) = c.toNat := by omega
        rw [harith, Char.ofNat_toNat, hrec]
        rfl
    · rw [if_neg h8]
      simp only [List.cons_append, List.nil_append]
      rw [parseJStrBody.eq_def]
      simp only []
      rw [if_neg h1, if_neg h2, if_neg (show ¬(c.toNat < 0x20) by omega)]
      rw [hrec]
      rfl

theorem numHead_facts (c : Char) (hd : c = '-' ∨ isDigitChar c = true) :
    isWsChar c = false ∧ ¬c = ']' ∧ ¬c = '\x7d' ∧ ¬c = ',' ∧ ¬c = '"' ∧
      ¬c = '\x7b' ∧ ¬c = '[' ∧ ¬c = 'n' ∧ ¬c = 't' ∧ ¬c = 'f' := by
  rcases hd with rfl | hd
  · exact ⟨by decide, by decide, by decide, by decide, by decide, by decide,
      by decide, by decide, by decide, by decide⟩
  · have hb : 48 ≤ c.toNat ∧ c.toNat ≤ 57 := by
      simpa [isDigitChar, Bool.and_eq_true, decide_eq_true_eq] using hd
    have hws : isWsChar c = false := by
      by_contra h
      rw [Bool.not_eq_false] at h
      simp only [isWsChar, Bool.or_eq_true, decide_eq_true_eq] at h
      rcases h with ((rfl | rfl) | rfl) | rfl <;> exact absurd hb (by decide)
    refine ⟨hws, ?_, ?_, ?_, ?_, ?_, ?_, ?_, ?_, ?_⟩ <;>
      (intro h; subst h; exact absurd hb (by decide))

theorem intDumps_head (i : Int) : ∃ c t, intDumps i = c :: t ∧
    (c = '-' ∨ isDigitChar c = true) := by
  rw [intDumps]
  by_cases h : i < 0
  · rw [if_pos h]
    exact ⟨'-', _, rfl, Or.inl rfl⟩
  · rw [if_neg h]
    rcases hx : natDigits i.toNat with - | ⟨c, t⟩
    · exact absurd hx (natDigits_ne_nil _)
    · exact ⟨c, t, rfl, Or.inr (natDigits_all_digit _ c (by rw [hx]; simp))⟩

theorem dumps_head (v : Json) : ∃ c t, dumps v = c :: t ∧ isWsChar c = false ∧
    ¬c = ']' ∧ ¬c = '\x7d' ∧ ¬c = ',' := by
  cases v with
  | jNull => exact ⟨'n', _, rfl, by decide, by decide, by decide, by decide⟩
  | jBool b =>
    cases b with
    | false => exact ⟨'f', _, rfl, by decide, by decide, by decide, by decide⟩
    | true => exact ⟨'t', _, rfl, by decide, by decide, by decide, by decide⟩
  | jInt i =>
    obtain ⟨c, t, he, hd⟩ := intDumps_head i
    obtain ⟨h1, h2, h3, h4, -, -, -, -, -, -⟩ := numHead_facts c hd
    exact ⟨c, t, he, h1, h2, h3, h4⟩
  | jStr s =>
    exact ⟨'"', dumpsStrBody s ++ ['"'], rfl, by decide, by decide, by decide, by decide⟩
  | jArr l =>
    exact ⟨'[', dumpsArr l ++ [']'], rfl, by decide, by decide, by decide, by decide⟩
  | jObj m =>
    exact ⟨'\x7b', dumpsObj m ++ ['\x7d'], rfl, by decide, by decide, by decide, by decide⟩

theorem skipWs_cons (c : Char) (t : PyStr) (h : isWsChar c = false) :
    skipWs (c :: t) = c :: t := by
  show List.dropWhile isWsChar (c :: t) = c :: t
  rw [List.dropWhile_cons, h]
  simp

theorem dumpsArr_cons_ex (u : Json) (t : List Json) :
    ∃ X, dumpsArr (u :: t) = dumps u ++ X := by
  cases t with
  | nil => exact ⟨[], by rw [List.append_nil]; exact rfl⟩
  | cons w t2 => exact ⟨',' :: dumpsArr (w :: t2), rfl⟩

theorem dumpsObj_cons_sh (k : PyStr) (v : Json) (t : List (PyStr × Json)) :
    ∃ X, dumpsObj ((k, v) :: t) = '"' :: X := by
  cases t with
  | nil => exact ⟨(dumpsStrBody k ++ ['"']) ++ ':' :: dumps v, rfl⟩
  | cons q t2 =>
    exact ⟨((dumpsStrBody k ++ ['"']) ++ (':' :: dumps v)) ++ (',' :: dumpsObj (q :: t2)), rfl⟩

theorem skipWs_dumps (v : Json) (Y : PyStr) : skipWs (dumps v ++ Y) = dumps v ++ Y := by
  obtain ⟨c, t, he, hws, -, -, -⟩ := dumps_head v
  rw [he, List.cons_append, skipWs_cons _ _ hws]

theorem skipWs_dumpsArr (u : Json) (t : List Json) (Y : PyStr) :
    skipWs (dumpsArr (u :: t) ++ Y) = dumpsArr (u :: t) ++ Y := by
  obtain ⟨X, hX⟩ := dumpsArr_cons_ex u t
  rw [hX, List.append_assoc, skipWs_dumps]

theorem skipWs_dumpsObj (k : PyStr) (v : Json) (t : List (PyStr × Json)) (Y : PyStr) :
    skipWs (dumpsObj ((k, v) :: t) ++ Y) = dumpsObj ((k, v) :: t) ++ Y := by
  obtain ⟨X, hX⟩ := dumpsObj_cons_sh k v t
  rw [hX, List.cons_append, skipWs_cons _ _ (by decide)]

theorem head_dumpsArr_ne (u : Json) (t : List Json) (Y : PyStr) :
    ¬(dumpsArr (u :: t) ++ Y).head? = some ']' := by
  obtain ⟨X, hX⟩ := dumpsArr_cons_ex u t
  obtain ⟨c, t', he, -, hne, -, -⟩ := dumps_head u
  rw [hX, List.append_assoc, he, List.cons_append, List.head?_cons]
  intro h
  injection h with h
  exact hne h

theorem head_dumpsObj_ne (k : PyStr) (v : Json) (t : List (PyStr × Json)) (Y : PyStr) :
    ¬(dumpsObj ((k, v) :: t) ++ Y).head? = some '\x7d' := by
  obtain ⟨X, hX⟩ := dumpsObj_cons_sh k v t
  rw [hX, List.cons_append, List.head?_cons]
  intro h
  injection h with h
  exact absurd h (by decide)

theorem dumpsChar_len (c : Char) : 1 ≤ (dumpsChar c).length := by
  rw [dumpsChar]
  split_ifs <;> simp [uEscape]

theorem dumpsStrBody_len (s : PyStr) : s.length ≤ (dumpsStrBody s).length := by
  induction s with
  | nil => simp [dumpsStrBody]
  | cons c cs ih =>
    show (c :: cs).length ≤ (dumpsChar c ++ dumpsStrBody cs).length
    rw [List.length_append, List.length_cons]
    have := dumpsChar_len c
    omega

theorem dumps_len_pos (v : Json) : 1 ≤ (dumps v).length := by
  obtain ⟨c, t, he, -⟩ := dumps_head v
  rw [he]
  simp

theorem dumpsStr_len (k : PyStr) : (dumpsStr k).length = (dumpsStrBody k).length + 2 := by
  show ('"' :: (dumpsStrBody k ++ ['"'])).length = _
  rw [List.length_cons, List.length_append, List.length_singleton]

theorem insertKey_append (acc : List (PyStr × Json)) (k : PyStr) (v : Json)
    (h : ∀ p ∈ acc, ¬p.1 = k) : insertKey acc k v = acc ++ [(k, v)] := by
  induction acc with
  | nil => rfl
  | cons q acc' ih =>
    obtain ⟨k', v'⟩ := q
    have hne : ¬k' = k := h (k', v') (List.mem_cons_self _ _)
    show (if k' = k then (k, v) :: acc' else (k', v') :: insertKey acc' k v)
      = (k', v') :: (acc' ++ [(k, v)])
    rw [if_neg hne, ih (fun p hp => h p (List.mem_cons_of_mem _ hp))]

theorem keysNodup_mem_ne (t : List (PyStr × Json)) (k : PyStr) (v : Json) :
    ∀ acc, keysNodup (acc ++ (k, v) :: t) = true → ∀ p ∈ acc, ¬p.1 = k := by
  intro acc
  induction acc with
  | nil => intro _ p hp; simp at hp
  | cons q acc' ih =>
    obtain ⟨k', v'⟩ := q
    intro h p hp
    have h' : ((acc' ++ (k, v) :: t).all (fun p => decide ¬(p.1 = k')) &&
        keysNodup (acc' ++ (k, v) :: t)) = true := h
    rw [Bool.and_eq_true] at h'
    rcases List.mem_cons.mp hp with rfl | hp'
    · have hall := h'.1
      rw [List.all_eq_true] at hall
      have hk := of_decide_eq_true (hall (k, v) (by simp))
      exact fun hh => hk hh.symm
    · exact ih h'.2 p hp'

theorem parseValue_str (F : Nat) (r0 : PyStr) :
    parseValue (F + 1) ('"' :: r0)
      = (parseJStrBody (r0.length + 1) r0).map (fun r => (Json.jStr r.1, r.2)) := rfl

theorem parseValue_objC (F : Nat) (r0 : PyStr) :
    parseValue (F + 1) ('\x7b' :: r0)
      = (if (skipWs r0).head? = some '\x7d' then some (Json.jObj [], (skipWs r0).tail)
         else (parseObjItems F (skipWs r0) []).map (fun r => (Json.jObj r.1, r.2))) := rfl

theorem parseValue_arrC (F : Nat) (r0 : PyStr) :
    parseValue (F + 1) ('[' :: r0)
      = (if (skipWs r0).head? = some ']' then some (Json.jArr [], (skipWs r0).tail)
         else (parseArrItems F (skipWs r0)).map (fun r => (Json.jArr r.1, r.2))) := rfl

theorem parseValue_num (F : Nat) (c : Char) (t : PyStr)
    (h1 : ¬c = '"') (h2 : ¬c = '\x7b') (h3 : ¬c = '[')
    (h4 : ¬(c :: t).take 4 = ['n', 'u', 'l', 'l'])
    (h5 : ¬(c :: t).take 4 = ['t', 'r', 'u', 'e'])
    (h6 : ¬(c :: t).take 5 = ['f', 'a', 'l', 's', 'e']) :
    parseValue (F + 1) (c :: t) = parseNumber (c :: t) := by
  rw [parseValue.eq_def]
  simp only []
  rw [if_neg h1, if_neg h2, if_neg h3, if_neg h4, if_neg h5, if_neg h6]

theorem parseArrItems_step (F : Nat) (cs : PyStr) :
    parseArrItems (F + 1) cs = (parseValue F cs).bind (fun p =>
      match skipWs p.2 with
      | ',' :: r2 => (parseArrItems F (skipWs r2)).map (fun t => (p.1 :: t.1, t.2))
      | ']' :: r2 => some ([p.1], r2)
      | _ => none) := rfl

theorem parseObjItems_step (F : Nat) (r0 : PyStr) (acc : List (PyStr × Json)) :
    parseObjItems (F + 1) ('"' :: r0) acc
      = (parseJStrBody (r0.length + 1) r0).bind (fun q =>
          match skipWs q.2 with
          | ':' :: r3 => (parseValue F (skipWs r3)).bind (fun p =>
              match skipWs p.2 with
              | ',' :: r6 => parseObjItems F (skipWs r6) (insertKey acc q.1 p.1)
              | '\x7d' :: r6 => some (insertKey acc q.1 p.1, r6)
              | _ => none)
          | _ => none) := rfl

theorem parse_dumps (fuel : Nat) :
    (∀ v rest, wfJ v = true → followerP rest → (dumps v).length < fuel →
       parseValue fuel (dumps v ++ rest) = some (v, rest)) ∧
    (∀ l rest, wfArr l = true → ¬l = [] → (dumpsArr l).length + 1 < fuel →
       parseArrItems fuel (dumpsArr l ++ ']' :: rest) = some (l, rest)) ∧
    (∀ m acc rest, wfObj m = true → keysNodup (acc ++ m) = true → ¬m = [] →
       (dumpsObj m).length + 1 < fuel →
       parseObjItems fuel (dumpsObj m ++ '\x7d' :: rest) acc = some (acc ++ m, rest)) := by
  induction fuel with
  | zero =>
    exact ⟨fun v rest _ _ h => absurd h (by omega),
      fun l rest _ _ h => absurd h (by omega),
      fun m acc rest _ _ _ h => absurd h (by omega)⟩
  | succ F ih =>
    obtain ⟨ihv, iha, iho⟩ := ih
    refine ⟨?_, ?_, ?_⟩
    · intro v rest hwf hfol hfuel
      cases v with
      | jNull => exact rfl
      | jBool b => cases b <;> exact rfl
      | jInt i =>
        obtain ⟨c, t, he, hd⟩ := intDumps_head i
        obtain ⟨-, -, -, -, hq, hbr, hbk, hn, ht, hf⟩ := numHead_facts c hd
        have hsh : dumps (Json.jInt i) ++ rest = c :: (t ++ rest) := by
          show intDumps i ++ rest = _
          rw [he, List.cons_append]
        have h4 : ¬(c :: (t ++ rest)).take 4 = ['n', 'u', 'l', 'l'] := by
          intro hx
          have hx' : c :: (t ++ rest).take 3 = ['n', 'u', 'l', 'l'] := hx
          injection hx' with hx1 hx2
          exact hn hx1
        have h5 : ¬(c :: (t ++ rest)).take 4 = ['t', 'r', 'u', 'e'] := by
          intro hx
          have hx' : c :: (t ++ rest).take 3 = ['t', 'r', 'u', 'e'] := hx
          injection hx' with hx1 hx2
          exact ht hx1
        have h6 : ¬(c :: (t ++ rest)).take 5 = ['f', 'a', 'l', 's', 'e'] := by
          intro hx
          have hx' : c :: (t ++ rest).take 4 = ['f', 'a', 'l', 's', 'e'] := hx
          injection hx' with hx1 hx2
          exact hf hx1
        rw [hsh, parseValue_num F c (t ++ rest) hq hbr hbk h4 h5 h6]
        have hback : c :: (t ++ rest) = intDumps i ++ rest := by
          rw [he, List.cons_append]
        rw [hback, parseNumber_intDumps i rest hfol]
      | jStr s =>
        have hsh : dumps (Json.jStr s) ++ rest = '"' :: (dumpsStrBody s ++ '"' :: rest) := by
          show ('"' :: (dumpsStrBody s ++ ['"'])) ++ rest = _
          simp only [List.cons_append, List.append_assoc, List.singleton_append, List.nil_append]
        have hkb : s.length < (dumpsStrBody s ++ '"' :: rest).length + 1 := by
          have := dumpsStrBody_len s
          rw [List.length_append]
          omega
        rw [hsh, parseValue_str, parseJStr_dumps s _ rest hkb]
        exact rfl
      | jArr l =>
        rcases l with - | ⟨u, t⟩
        · exact rfl
        · have hsh : dumps (Json.jArr (u :: t)) ++ rest
              = '[' :: (dumpsArr (u :: t) ++ ']' :: rest) := by
            show ('[' :: (dumpsArr (u :: t) ++ [']'])) ++ rest = _
            simp only [List.cons_append, List.append_assoc, List.singleton_append, List.nil_append]
          rw [hsh, parseValue_arrC]
          rw [skipWs_dumpsArr u t (']' :: rest)]
          rw [if_neg (head_dumpsArr_ne u t (']' :: rest))]
          have hwa : wfArr (u :: t) = true := hwf
          have hlen : (dumps (Json.jArr (u :: t))).length = (dumpsArr (u :: t)).length + 2 := by
            show ('[' :: (dumpsArr (u :: t) ++ [']'])).length = _
            rw [List.length_cons, List.length_append, List.length_singleton]
          rw [iha (u :: t) rest hwa (by simp) (by omega)]
          exact rfl
      | jObj m =>
        rcases m with - | ⟨⟨k, v⟩, t⟩
        · exact rfl
        · have hsh : dumps (Json.jObj ((k, v) :: t)) ++ rest
              = '\x7b' :: (dumpsObj ((k, v) :: t) ++ '\x7d' :: rest) := by
            show ('\x7b' :: (dumpsObj ((k, v) :: t) ++ ['\x7d'])) ++ rest = _
            simp only [List.cons_append, List.append_assoc, List.singleton_append, List.nil_append]
          rw [hsh, parseValue_objC]
          rw [skipWs_dumpsObj k v t ('\x7d' :: rest)]
          rw [if_neg (head_dumpsObj_ne k v t ('\x7d' :: rest))]
          have hww : (keysNodup ((k, v) :: t) && wfObj ((k, v) :: t)) = true := hwf
          rw [Bool.and_eq_true] at hww
          have hlen : (dumps (Json.jObj ((k, v) :: t))).length
              = (dumpsObj ((k, v) :: t)).length + 2 := by
            show ('\x7b' :: (dumpsObj ((k, v) :: t) ++ ['\x7d'])).length = _
            rw [List.length_cons, List.length_append, List.length_singleton]
          rw [iho ((k, v) :: t) [] rest hww.2 hww.1 (by simp) (by omega)]
          exact rfl
    · intro l rest hwf hne hfuel
      rcases l with - | ⟨u, t⟩
      · exact absurd rfl hne
      · have hww : (wfJ u && wfArr t) = true := hwf
        rw [Bool.and_eq_true] at hww
        rcases t with - | ⟨w, t2⟩
        · have h0 : (dumpsArr [u]).length = (dumps u).length := rfl
          rw [show dumpsArr [u] ++ ']' :: rest = dumps u ++ ']' :: rest from rfl]
          rw [parseArrItems_step]
          rw [ihv u (']' :: rest) hww.1 (Or.inr (Or.inr (Or.inl rfl))) (by omega)]
          simp only [Option.some_bind]
          rw [skipWs_cons ']' rest (by decide)]
          all_goals exact rfl
        · have hdp := dumps_len_pos u
          have hsh : dumpsArr (u :: w :: t2) ++ ']' :: rest
              = dumps u ++ (',' :: (dumpsArr (w :: t2) ++ ']' :: rest)) := by
            show (dumps u ++ (',' :: dumpsArr (w :: t2))) ++ ']' :: rest = _
            rw [List.append_assoc, List.cons_append]
          have h0 : (dumpsArr (u :: w :: t2)).length
              = (dumps u).length + ((dumpsArr (w :: t2)).length + 1) := by
            show (dumps u ++ (',' :: dumpsArr (w :: t2))).length = _
            rw [List.length_append, List.length_cons]
          rw [hsh, parseArrItems_step]
          rw [ihv u (',' :: (dumpsArr (w :: t2) ++ ']' :: rest)) hww.1
            (Or.inr (Or.inl rfl)) (by omega)]
          simp only [Option.some_bind]
          rw [skipWs_cons ',' _ (by decide)]
          simp only []
          rw [skipWs_dumpsArr w t2 (']' :: rest)]
          rw [iha (w :: t2) rest hww.2 (by simp) (by omega)]
          all_goals exact rfl
    · intro m acc rest hwf hnd hne hfuel
      rcases m with - | ⟨⟨k, v⟩, t⟩
      · exact absurd rfl hne
      · have hww : (wfJ v && wfObj t) = true := hwf
        rw [Bool.and_eq_true] at hww
        have hnotin : ∀ p ∈ acc, ¬p.1 = k := keysNodup_mem_ne t k v acc hnd
        have hik : insertKey acc k v = acc ++ [(k, v)] := insertKey_append acc k v hnotin
        have hsl := dumpsStr_len k
        rcases t with - | ⟨⟨k2, v2⟩, t3⟩
        · have hsh : dumpsObj [(k, v)] ++ '\x7d' :: rest
              = '"' :: (dumpsStrBody k ++ '"' :: (':' :: (dumps v ++ '\x7d' :: rest))) := by
            show (('"' :: (dumpsStrBody k ++ ['"'])) ++ (':' :: dumps v)) ++ '\x7d' :: rest = _
            simp only [List.cons_append, List.append_assoc, List.singleton_append, List.nil_append]
          have hkb : k.length
              < (dumpsStrBody k ++ '"' :: (':' :: (dumps v ++ '\x7d' :: rest))).length + 1 := by
            have := dumpsStrBody_len k
            rw [List.length_append]
            omega
          have h0 : (dumpsObj [(k, v)]).length = (dumpsStr k).length + ((dumps v).length + 1) := by
            show (dumpsStr k ++ (':' :: dumps v)).length = _
            rw [List.length_append, List.length_cons]
          rw [hsh, parseObjItems_step]
          rw [parseJStr_dumps k _ _ hkb]
          simp only [Option.some_bind]
          rw [skipWs_cons ':' _ (by decide)]
          simp only []
          rw [skipWs_dumps v ('\x7d' :: rest)]
          rw [ihv v ('\x7d' :: rest) hww.1 (Or.inr (Or.inr (Or.inr rfl))) (by omega)]
          simp only [Option.some_bind]
          rw [skipWs_cons '\x7d' rest (by decide)]
          simp only []
          rw [hik]
        · have hsh : dumpsObj ((k, v) :: (k2, v2) :: t3) ++ '\x7d' :: rest
              = '"' :: (dumpsStrBody k ++ '"' :: (':' :: (dumps v ++ ',' ::
                  (dumpsObj ((k2, v2) :: t3) ++ '\x7d' :: rest)))) := by
            show ((('"' :: (dumpsStrBody k ++ ['"'])) ++ (':' :: dumps v)) ++
                (',' :: dumpsObj ((k2, v2) :: t3))) ++ '\x7d' :: rest = _
            simp only [List.cons_append, List.append_assoc, List.singleton_append, List.nil_append]
          have hkb : k.length < (dumpsStrBody k ++ '"' :: (':' :: (dumps v ++ ',' ::
              (dumpsObj ((k2, v2) :: t3) ++ '\x7d' :: rest)))).length + 1 := by
            have := dumpsStrBody_len k
            rw [List.length_append]
            omega
          have h0 : (dumpsObj ((k, v) :: (k2, v2) :: t3)).length
              = ((dumpsStr k).length + ((dumps v).length + 1))
                + ((dumpsObj ((k2, v2) :: t3)).length + 1) := by
            show ((dumpsStr k ++ (':' :: dumps v)) ++ (',' :: dumpsObj ((k2, v2) :: t3))).length = _
            simp only [List.length_append, List.length_cons]
          rw [hsh, parseObjItems_step]
          rw [parseJStr_dumps k _ _ hkb]
          simp only [Option.some_bind]
          rw [skipWs_cons ':' _ (by decide)]
          simp only []
          rw [skipWs_dumps v (',' :: (dumpsObj ((k2, v2) :: t3) ++ '\x7d' :: rest))]
          rw [ihv v (',' :: (dumpsObj ((k2, v2) :: t3) ++ '\x7d' :: rest)) hww.1
            (Or.inr (Or.inl rfl)) (by omega)]
          simp only [Option.some_bind]
          rw [skipWs_cons ',' _ (by decide)]
          simp only []
          rw [hik]
          rw [skipWs_dumpsObj k2 v2 t3 ('\x7d' :: rest)]
          have hnd2 : keysNodup ((acc ++ [(k, v)]) ++ (k2, v2) :: t3) = true := by
            rw [List.append_assoc]
            exact hnd
          rw [iho ((k2, v2) :: t3) (acc ++ [(k, v)]) rest hww.2 hnd2 (by simp) (by omega)]
          rw [List.append_assoc, List.singleton_append]

theorem pyLoads_dumps (v : Json) (h : wfJ v = true) : pyLoads (dumps v) = some v := by
  have hsw : skipWs (dumps v) = dumps v := by
    have h2 := skipWs_dumps v []
    rwa [List.append_nil] at h2
  have hpv : parseValue ((dumps v).length + 1) (dumps v) = some (v, []) := by
    have h3 := (parse_dumps ((dumps v).length + 1)).1 v [] h (Or.inl rfl) (by omega)
    rwa [List.append_nil] at h3
  show (match parseValue ((skipWs (dumps v)).length + 1) (skipWs (dumps v)) with
    | some (w, rest) => if skipWs rest = [] then some w else none
    | none => none) = some v
  rw [hsw, hpv]
  exact rfl

theorem splitOnDot_nodot (s : PyStr) (h : '.' ∉ s) : splitOnDot s = [s] := by
  induction s with
  | nil => rfl
  | cons c cs ih =>
    have hc : ¬c = '.' := fun hh => h (by rw [hh]; exact List.mem_cons_self _ _)
    rw [show splitOnDot (c :: cs) = (if c = '.' then [] :: splitOnDot cs else
      match splitOnDot cs with
      | [] => [[c]]
      | t :: ts => (c :: t) :: ts) from rfl]
    rw [if_neg hc, ih (fun hm => h (List.mem_cons_of_mem _ hm))]

theorem splitOnDot_cut (a : PyStr) (r : PyStr) (h : '.' ∉ a) :
    splitOnDot (a ++ '.' :: r) = a :: splitOnDot r := by
  induction a with
  | nil =>
    rw [List.nil_append]
    rw [show splitOnDot ('.' :: r) = (if '.' = '.' then [] :: splitOnDot r else
      match splitOnDot r with
      | [] => [['.']]
      | t :: ts => ('.' :: t) :: ts) from rfl]
    rw [if_pos rfl]
  | cons c cs ih =>
    have hc : ¬c = '.' := fun hh => h (by rw [hh]; exact List.mem_cons_self _ _)
    rw [List.cons_append]
    rw [show splitOnDot (c :: (cs ++ '.' :: r)) = (if c = '.' then [] :: splitOnDot (cs ++ '.' :: r) else
      match splitOnDot (cs ++ '.' :: r) with
      | [] => [[c]]
      | t :: ts => (c :: t) :: ts) from rfl]
    rw [if_neg hc, ih (fun hm => h (List.mem_cons_of_mem _ hm))]

theorem splitOnDot_three (a b c : PyStr) (ha : '.' ∉ a) (hb : '.' ∉ b) (hc : '.' ∉ c) :
    splitOnDot (a ++ '.' :: (b ++ '.' :: c)) = [a, b, c] := by
  rw [splitOnDot_cut a _ ha, splitOnDot_cut b _ hb, splitOnDot_nodot c hc]

theorem toUrlsafe_std_ne_dot (n : Nat) : ¬toUrlsafe (stdB64Char n) = '.' := by
  by_cases h : n < 64
  · exact (show ∀ m, m < 64 → ¬toUrlsafe (stdB64Char m) = '.' by decide) n h
  · rw [stdB64Char, List.getD_eq_default]
    · decide
    · simp at h
      simpa using h

theorem toUrlsafe_std_ascii (n : Nat) : (toUrlsafe (stdB64Char n)).toNat < 128 := by
  by_cases h : n < 64
  · exact (show ∀ m, m < 64 → (toUrlsafe (stdB64Char m)).toNat < 128 by decide) n h
  · rw [stdB64Char, List.getD_eq_default]
    · decide
    · simp at h
      simpa using h

theorem b64seg_facts (x : List Nat) : ∀ c ∈ (encStdNP x).map toUrlsafe,
    ¬c = '.' ∧ c.toNat < 128 := by
  intro c hc
  rw [List.mem_map] at hc
  obtain ⟨d, hd, rfl⟩ := hc
  obtain ⟨n, rfl⟩ := encStdNP_mem x d hd
  exact ⟨toUrlsafe_std_ne_dot n, toUrlsafe_std_ascii n⟩

theorem stripEq_idem : ∀ l : PyStr, stripEq (stripEq l) = stripEq l
  | [] => rfl
  | c :: cs => by
    rw [show stripEq (c :: cs) = (if stripEq cs = [] ∧ c = '=' then [] else c :: stripEq cs)
      from rfl]
    by_cases h : stripEq cs = [] ∧ c = '='
    · rw [if_pos h]
      rfl
    · rw [if_neg h]
      rw [show stripEq (c :: stripEq cs) = (if stripEq (stripEq cs) = [] ∧ c = '=' then []
        else c :: stripEq (stripEq cs)) from rfl]
      rw [stripEq_idem cs, if_neg h]

theorem stripEq_encB64 (d : List Nat) :
    stripEq ((encStdNP d).map toUrlsafe) = (encStdNP d).map toUrlsafe := by
  have h : (encStdNP d).map toUrlsafe = stripEq ((encStdGroups d).map toUrlsafe) := by
    rw [stripEq_map_toUrlsafe, stripEq_encStdGroups]
  rw [h, stripEq_idem]

theorem compare_digest_self (a : PyStr) (h : ∀ c ∈ a, c.toNat < 128) :
    compare_digest a a = .ok true := by
  rw [compare_digest, if_pos ⟨h, h⟩]
  rw [decide_eq_true (rfl : a = a)]

theorem sign_token_ok (hmacFn : HmacFn) (a b : PyStr) (alg : Json) (secret sig : PyStr)
    (h : sign_token hmacFn a b alg secret = .ok sig) :
    ∃ d : List Nat, sig = (encStdNP d).map toUrlsafe := by
  rw [sign_token] at h
  split_ifs at h
  · injection h with h'
    exact ⟨_, by rw [← h', stripEq_map_toUrlsafe, stripEq_encStdGroups]⟩
  · injection h with h'
    exact ⟨_, by rw [← h', stripEq_map_toUrlsafe, stripEq_encStdGroups]⟩

theorem semAnalyze_eq (h p : JMap) (t : Int) :
    SemanticAnalyzer.analyze h p t =
      (match validateHeader h with
       | .error e => .error e
       | .ok _ =>
         match validatePayload p t with
         | .error e => .error e
         | .ok _ => .ok (h, p)) := by
  rw [SemanticAnalyzer.analyze]
  rcases validateHeader h with e | u
  · exact rfl
  · rcases validatePayload p t with e | u2
    · exact rfl
    · exact rfl

theorem sem_ok_header (h p : JMap) (t : Int) (pr : JMap × JMap)
    (hs : SemanticAnalyzer.analyze h p t = .ok pr) : validateHeader h = .ok () := by
  rw [semAnalyze_eq] at hs
  rcases hv : validateHeader h with e | u
  · rw [hv] at hs
    simp at hs
  · exact rfl

theorem validateHeader_ok_alg (h : JMap) (hok : validateHeader h = .ok ()) :
    (jsonEqStr (getKey h ("alg".data)) ("HS256".data) ||
      jsonEqStr (getKey h ("alg".data)) ("HS384".data)) = true := by
  rw [validateHeader] at hok
  split_ifs at hok with h1 h2 h3 h4 h5 h6
  exact h5

theorem encode_jwt_eq (hmacFn : HmacFn) (header payload : JMap) (secret : PyStr)
    (tActual : Int) :
    encode_jwt hmacFn header payload secret tActual =
      (match analyzeStx (dumps (.jObj header)) (dumps (.jObj payload)) with
       | .error e => .error (.pyError e)
       | .ok syn =>
         if ¬syn.valid then .error (.syntaxInvalid syn.errors)
         else
           match SemanticAnalyzer.analyze header payload tActual with
           | .error e => .error (.semantic e)
           | .ok _ =>
             match lookupKey header ("alg".data) with
             | none => .error (.pyError .keyError)
             | some algorithm =>
               match sign_token hmacFn (encode_base64url (dumps (.jObj header)))
                   (encode_base64url (dumps (.jObj payload))) algorithm secret with
               | .error _ => .error .unsupportedAlg
               | .ok signatureB64 =>
                 .ok (encode_base64url (dumps (.jObj header)) ++ '.' ::
                   (encode_base64url (dumps (.jObj payload)) ++ '.' :: signatureB64))) := by
  rw [encode_jwt]
  rcases analyzeStx (dumps (Json.jObj header)) (dumps (Json.jObj payload)) with e | syn
  · exact rfl
  · obtain ⟨ss, sv, sh, sp, serr⟩ := syn
    cases sv
    · exact rfl
    · rcases SemanticAnalyzer.analyze header payload tActual with e | pr
      · exact rfl
      · rcases lookupKey header ("alg".data) with - | algorithm
        · exact rfl
        · simp only [Except.mapError, Except.bind, bind, Bind.bind, pure_bind, throw,
            throwThe, MonadExceptOf.throw, pure, Except.pure]
          rcases sign_token hmacFn (encode_base64url (dumps (Json.jObj header)))
              (encode_base64url (dumps (Json.jObj payload))) algorithm secret with u | sig
          · exact rfl
          · exact rfl

theorem encode_jwt_ok (hmacFn : HmacFn) (header payload : JMap) (secret : PyStr)
    (tActual : Int) (token : PyStr)
    (henc : encode_jwt hmacFn header payload secret tActual = .ok token) :
    ∃ algorithm signatureB64,
      lookupKey header ("alg".data) = some algorithm ∧
      validateHeader header = .ok () ∧
      sign_token hmacFn (encode_base64url (dumps (.jObj header)))
        (encode_base64url (dumps (.jObj payload))) algorithm secret = .ok signatureB64 ∧
      token = encode_base64url (dumps (.jObj header)) ++ '.' ::
        (encode_base64url (dumps (.jObj payload)) ++ '.' :: signatureB64) := by
  rw [encode_jwt_eq] at henc
  rcases hs : analyzeStx (dumps (Json.jObj header)) (dumps (Json.jObj payload)) with e | syn
  · rw [hs] at henc
    simp at henc
  · rw [hs] at henc
    simp only [] at henc
    by_cases hv : syn.valid
    · rw [if_neg (fun hh => hh hv)] at henc
      rcases hm : SemanticAnalyzer.analyze header payload tActual with e | pr
      · rw [hm] at henc
        simp at henc
      · rw [hm] at henc
        simp only [] at henc
        rcases hl : lookupKey header ("alg".data) with - | algorithm
        · rw [hl] at henc
          simp at henc
        · rw [hl] at henc
          simp only [] at henc
          rcases hsg : sign_token hmacFn (encode_base64url (dumps (Json.jObj header)))
              (encode_base64url (dumps (Json.jObj payload))) algorithm secret with u | sig
          · rw [hsg] at henc
            simp at henc
          · rw [hsg] at henc
            simp only [] at henc
            injection henc with henc
            exact ⟨algorithm, sig, rfl, sem_ok_header header payload tActual pr hm,
              hsg, henc.symm⟩
    · rw [if_pos hv] at henc
      simp at henc

theorem verifyBody_success (hmacFn : HmacFn) (jwtToken secret : PyStr)
    (hB64 pB64 sB64 rec : PyStr) (header payload algorithm : Json)
    (hsplit : splitOnDot jwtToken = [hB64, pB64, sB64])
    (hh : (decode_base64url hB64).bind pyLoads = some header)
    (hck : pyContainsKey header ("alg".data) = .ok true)
    (hsub : pySubscript header ("alg".data) = .ok algorithm)
    (hcond : (jsonEqStr algorithm ("HS256".data) || jsonEqStr algorithm ("HS384".data)) = true)
    (hsig : sign_token hmacFn hB64 pB64 algorithm secret = .ok rec)
    (hcmp : compare_digest (stripEq sB64) (stripEq rec) = .ok true)
    (hp : (decode_base64url pB64).bind pyLoads = some payload) :
    verifyBody hmacFn jwtToken secret = .ok { valid := true, algorithm := some algorithm, header := some header, payload := some payload, error := none } := by
  rw [verifyBody, hsplit]
  simp only []
  rw [if_neg (by simp)]
  rw [show ([hB64, pB64, sB64] : List PyStr).getD 0 [] = hB64 from rfl,
      show ([hB64, pB64, sB64] : List PyStr).getD 1 [] = pB64 from rfl,
      show ([hB64, pB64, sB64] : List PyStr).getD 2 [] = sB64 from rfl]
  rw [hh]
  simp only []
  rw [hck]
  simp only []
  rw [if_neg (by simp)]
  rw [hsub]
  simp only []
  rw [hcond]
  rw [if_neg (by simp)]
  rw [hsig]
  simp only []
  rw [hcmp]
  simp only []
  rw [if_neg (by simp)]
  rw [hp]

/-- Claim C1: round trip — for every header and payload map (with the
pairwise-distinct keys every Python `dict` has), every secret, every HMAC
primitive and every current time, if `encode_jwt` succeeds (which is exactly
when the structural and semantic validations pass), then verifying the
produced token with the same secret yields a result with `valid = true`
whose returned header and payload equal the original maps. -/
theorem claim_C1_roundtrip (hmacFn : HmacFn) (header payload : JMap) (secret : PyStr)
    (tActual : Int) (token : PyStr)
    (hwh : wfJ (.jObj header) = true) (hwp : wfJ (.jObj payload) = true)
    (henc : encode_jwt hmacFn header payload secret tActual = .ok token) :
    (verify_jwt_signature hmacFn token secret).valid = true ∧
    (verify_jwt_signature hmacFn token secret).header = some (.jObj header) ∧
    (verify_jwt_signature hmacFn token secret).payload = some (.jObj payload) := by
  obtain ⟨algorithm, sB64, hl, hvh, hsg, htok⟩ :=
    encode_jwt_ok hmacFn header payload secret tActual token henc
  have hga : getKey header ("alg".data) = algorithm := by
    rw [getKey, hl]
    exact rfl
  have halgok := validateHeader_ok_alg header hvh
  rw [hga] at halgok
  obtain ⟨d, hsb⟩ := sign_token_ok hmacFn _ _ algorithm secret sB64 hsg
  have hnh : '.' ∉ encode_base64url (dumps (Json.jObj header)) := by
    rw [encode_base64url_eq]
    intro hm
    exact (b64seg_facts _ _ hm).1 rfl
  have hnp : '.' ∉ encode_base64url (dumps (Json.jObj payload)) := by
    rw [encode_base64url_eq]
    intro hm
    exact (b64seg_facts _ _ hm).1 rfl
  have hns : '.' ∉ sB64 := by
    rw [hsb]
    intro hm
    exact (b64seg_facts _ _ hm).1 rfl
  have hsplit : splitOnDot token = [encode_base64url (dumps (Json.jObj header)),
      encode_base64url (dumps (Json.jObj payload)), sB64] := by
    rw [htok]
    exact splitOnDot_three _ _ _ hnh hnp hns
  have hhd : (decode_base64url (encode_base64url (dumps (Json.jObj header)))).bind pyLoads
      = some (Json.jObj header) := by
    rw [codec_roundtrip]
    exact pyLoads_dumps _ hwh
  have hpd : (decode_base64url (encode_base64url (dumps (Json.jObj payload)))).bind pyLoads
      = some (Json.jObj payload) := by
    rw [codec_roundtrip]
    exact pyLoads_dumps _ hwp
  have hck : pyContainsKey (Json.jObj header) ("alg".data) = .ok true := by
    show Except.ok (lookupKey header ("alg".data)).isSome = .ok true
    rw [hl]
    exact rfl
  have hsubx : pySubscript (Json.jObj header) ("alg".data) = .ok algorithm := by
    show (match lookupKey header ("alg".data) with
      | some v => Except.ok v
      | none => Except.error PyErr.keyError) = .ok algorithm
    rw [hl]
  have hstrip : stripEq sB64 = sB64 := by
    rw [hsb]
    exact stripEq_encB64 d
  have hascii : ∀ c ∈ sB64, c.toNat < 128 := by
    intro c hc
    rw [hsb] at hc
    exact (b64seg_facts _ _ hc).2
  have hcmp : compare_digest (stripEq sB64) (stripEq sB64) = .ok true := by
    rw [hstrip]
    exact compare_digest_self sB64 hascii
  have hvb := verifyBody_success hmacFn token secret
    (encode_base64url (dumps (Json.jObj header)))
    (encode_base64url (dumps (Json.jObj payload))) sB64 sB64
    (Json.jObj header) (Json.jObj payload) algorithm
    hsplit hhd hck hsubx halgok hsg hcmp hpd
  have hfin : verify_jwt_signature hmacFn token secret
      = { valid := true, algorithm := some algorithm, header := some (Json.jObj header), payload := some (Json.jObj payload), error := none } := by
    rw [verify_jwt_signature, hvb]
  rw [hfin]
  exact ⟨rfl, rfl, rfl⟩

theorem claim_C1_roundtrip_witness :
    encode_jwt (fun _ _ _ => []) [("alg".data, .jStr ("HS256".data)), ("typ".data, .jStr ("JWT".data))]
        [("sub".data, .jStr ("u".data))] ("s".data) 0
      = .ok ("eyJhbGciOiJIUzI1NiIsInR5cCI6IkpXVCJ9.eyJzdWIiOiJ1In0.".data) ∧
    ((verify_jwt_signature (fun _ _ _ => [])
        ("eyJhbGciOiJIUzI1NiIsInR5cCI6IkpXVCJ9.eyJzdWIiOiJ1In0.".data) ("s".data)).valid = true ∧
      (verify_jwt_signature (fun _ _ _ => [])
        ("eyJhbGciOiJIUzI1NiIsInR5cCI6IkpXVCJ9.eyJzdWIiOiJ1In0.".data) ("s".data)).header
        = some (.jObj [("alg".data, .jStr ("HS256".data)), ("typ".data, .jStr ("JWT".data))]) ∧
      (verify_jwt_signature (fun _ _ _ => [])
        ("eyJhbGciOiJIUzI1NiIsInR5cCI6IkpXVCJ9.eyJzdWIiOiJ1In0.".data) ("s".data)).payload
        = some (.jObj [("sub".data, .jStr ("u".data))])) :=
  ⟨rfl, claim_C1_roundtrip (fun _ _ _ => [])
    [("alg".data, .jStr ("HS256".data)), ("typ".data, .jStr ("JWT".data))]
    [("sub".data, .jStr ("u".data))] ("s".data) 0
    ("eyJhbGciOiJIUzI1NiIsInR5cCI6IkpXVCJ9.eyJzdWIiOiJ1In0.".data) rfl rfl rfl⟩
